import Mathlib

/-!
Verification of the `unused-interface-methods` Go linter.

This file gives a shallow embedding of the analyzer in
`internal/analizer/analizer.go` (interface-method collection, usage
tracking, match resolution, reporting), of the collection phase of the
`main.go` analyzer variant (the `skipGenerics` flag), and of the
configuration loader (`LoadConfig` in the config package), together with
theorems settling the specification claims.

Conventions of the embedding:
* `*types.Func` objects are modelled by the structure `Func`; Lean equality
  of `Func` values models Go pointer equality of method objects (distinct
  method objects are given distinct `fid` tokens).
* Signatures (`*types.Signature`) are modelled first-order by `FuncSig`;
  `types.Identical` on signatures is modelled by equality of `FuncSig`.
* `types.Type` receiver values are modelled by `Ty`; the relevant parts of
  the external `go/types` library (`Identical`, `Implements`, `Underlying`,
  `Named.Origin`) are modelled by `typesIdentical`, `typesImplements`,
  `underlyingIfaceOf`, `namedInfoOf`.
* Go maps are modelled by association lists with overwrite-insert
  (`mapInsert`); the arbitrary iteration order of a Go map is modelled by
  quantifying over permutations of the association list where the order is
  observable (the reporter).
* Fallible code is `Option`-valued: `isMethodMatch` returns `none` where
  the Go code would dereference a nil receiver.
-/

namespace UIM

/-- Model of the Go types that can occur in a method signature: the basic
`string` type (`.str`), other basic kinds (`.basic k`), and any other type
by an identity token (`.tyRef id`).  Distinct Go types get distinct
representatives, so `types.Identical` on component types is equality. -/
inductive SimpleTy where
  | str
  | basic (kind : Nat)
  | tyRef (id : Nat)
deriving DecidableEq

/-- Model of `*types.Signature`: parameter and result types in order.
`types.Identical` on signatures is modelled by equality. -/
structure FuncSig where
  params : List SimpleTy
  results : List SimpleTy
deriving DecidableEq

/-- A source position, as produced by `pass.Fset.Position`. -/
structure Pos where
  file : String
  line : Nat
  col : Nat
deriving DecidableEq

/-- Model of `*types.Func` (a method object).  `fid` is the object identity:
Go pointer equality of two `*types.Func` values is equality of the
corresponding `Func` values (distinct objects carry distinct `fid`). -/
structure Func where
  fid : Nat
  name : String
  sig : FuncSig
  pos : Pos
deriving DecidableEq

/-- Model of `*types.Interface`: the explicitly declared methods
(`NumExplicitMethods`/`ExplicitMethod`) and the full method set including
methods obtained through embedding (`NumMethods`/`Method`). -/
structure Iface where
  explicitMethods : List Func
  allMethods : List Func
deriving DecidableEq

/-- `methodInfo` from analizer.go: information about one interface method. -/
structure MethodInfo where
  ifaceName : String
  iface : Iface
  method : Func
  used : Bool
deriving DecidableEq

/-- The data of a `*types.Named` type: its object identity `uid`, its name
`Obj().Name()`, and the identity and name of `Origin()`.  For a type that is
not an instantiation of a generic type, `Origin()` returns the type itself,
i.e. `originUid = uid`. -/
structure NamedInfo where
  uid : Nat
  name : String
  originUid : Nat
  originName : String
deriving DecidableEq

/-- Model of the `types.Type` values the analyzer inspects as receiver and
argument types: basic types, defined (named) types with interface
underlying, defined types with concrete underlying (carrying their method
set), unnamed interface types, and pointer types. -/
inductive Ty where
  | basic (kind : Nat)
  | namedI (n : NamedInfo) (under : Iface)
  | namedC (n : NamedInfo) (methods : List Func)
  | ifaceTy (i : Iface)
  | ptr (elem : Ty)
deriving DecidableEq

/-- Method set of a type, as used by `types.Implements`.  The method set of
a pointer type is that of its base defined concrete type; pointers to
interfaces and to basic types have an empty method set.  The model does not
distinguish value-receiver from pointer-receiver methods: a defined concrete
type carries one method list, used for both `T` and `*T`. -/
def methodSet : Ty → List Func
  | .basic _ => []
  | .namedI _ u => u.allMethods
  | .namedC _ ms => ms
  | .ifaceTy i => i.allMethods
  | .ptr (.namedC _ ms) => ms
  | .ptr _ => []

/-- Model of `types.Implements(V, I)`: every method of the interface has a
method of the same name and identical signature in `V`'s method set. -/
def typesImplements (v : Ty) (i : Iface) : Bool :=
  i.allMethods.all fun m =>
    (methodSet v).any fun m' => m'.name == m.name && m'.sig == m.sig

/-- One-sided method-set containment between interfaces, by name and
signature; used to model `types.Identical` on interface types. -/
def ifaceSubset (a b : Iface) : Bool :=
  a.allMethods.all fun m =>
    b.allMethods.any fun m' => m'.name == m.name && m'.sig == m.sig

/-- Model of `types.Identical`: a defined type is identical only to the same
defined type (same type object); unnamed interface types are identical iff
they have the same method set; a defined type is never identical to an
unnamed interface type. -/
def typesIdentical : Ty → Ty → Bool
  | .basic k, .basic k' => k == k'
  | .namedI n _, .namedI n' _ => n.uid == n'.uid
  | .namedC n _, .namedC n' _ => n.uid == n'.uid
  | .ifaceTy a, .ifaceTy b => ifaceSubset a b && ifaceSubset b a
  | .ptr a, .ptr b => typesIdentical a b
  | _, _ => false

/-- `recv.Underlying().(*types.Interface)`: the underlying interface of a
type, when it has one. -/
def underlyingIfaceOf : Ty → Option Iface
  | .namedI _ u => some u
  | .ifaceTy i => some i
  | _ => none

/-- `recv.(*types.Named)`: the named-type data of a type, when it is a
defined type. -/
def namedInfoOf : Ty → Option NamedInfo
  | .namedI n _ => some n
  | .namedC n _ => some n
  | _ => none

/-- `getTypeName` from analizer.go: the name of a named type, `""` otherwise. -/
def getTypeName : Ty → String
  | .namedI n _ => n.name
  | .namedC n _ => n.name
  | _ => ""

/-- `genericMethodsMatch` from analizer.go: the implementation deliberately
does not substitute type parameters; it returns `true` unconditionally
(its callers have already checked the names and the origin). -/
def genericMethodsMatch (instMethod genericMethod : Func) : Bool := true

/-- The receiver-side condition of the generic branch of `isMethodMatch`:
the receiver is a `*types.Named` whose `Origin()` differs from itself (an
instantiation) and whose origin's name equals the candidate's interface
name, and `genericMethodsMatch` accepts. -/
def genericRecvHit (recv : Option Ty) (info : MethodInfo)
    (calledMethod ifaceMethod : Func) : Bool :=
  match recv with
  | some r =>
    match namedInfoOf r with
    | some n =>
      n.originUid != n.uid && n.originName == info.ifaceName &&
        genericMethodsMatch calledMethod ifaceMethod
    | none => false
  | none => false

/-- `isMethodMatch` from analizer.go.  The receiver is `Option`-valued so
that the nil-receiver behaviour is expressible: the result `none` models the
nil-pointer dereference the Go code performs at `recv.Underlying()` when
`recv` is nil and the candidate has a matching name and identical signature.
Branches in source order: pointer-identity match; name mismatch; generic
instantiation heuristic; signature mismatch; interface receivers require
`types.Identical(recv, info.iface)`; concrete receivers require
`types.Implements(recv, info.iface)`. -/
def isMethodMatch (calledMethod ifaceMethod : Func) (recv : Option Ty)
    (info : MethodInfo) : Option Bool :=
  if calledMethod = ifaceMethod then
    some true
  else if calledMethod.name ≠ ifaceMethod.name then
    some false
  else if genericRecvHit recv info calledMethod ifaceMethod then
    some true
  else if calledMethod.sig ≠ ifaceMethod.sig then
    some false
  else
    match recv with
    | none => none
    | some r =>
      match underlyingIfaceOf r with
      | some _ => some (typesIdentical r (Ty.ifaceTy info.iface))
      | none => some (typesImplements r info.iface)

/-- The method registry `map[*types.Func]methodInfo`, modelled as an
association list in insertion order. -/
abbrev Registry := List (Func × MethodInfo)

/-- Go map insertion: overwrite the binding if the key is present, append
otherwise. -/
def mapInsert (reg : Registry) (k : Func) (v : MethodInfo) : Registry :=
  match reg with
  | [] => [(k, v)]
  | (k', v') :: rest =>
    if k' = k then (k, v) :: rest else (k', v') :: mapInsert rest k v

/-- Sequential insertion of a list of entries into an empty map: the loop
body `ifaceMethods[m] = methodInfo{...}` executed over the entries in source
order. -/
def buildMap (entries : List (Func × MethodInfo)) : Registry :=
  entries.foldl (fun r p => mapInsert r p.1 p.2) []

/-- A top-level type declaration of an analyzed file: either an interface
type declaration (name, number of declared type parameters, and the resolved
interface type — `none` models the cases the collector skips: `Defs` lookup
failing, the object not being a `*types.Named`, or the underlying type not
being an interface), or any other declaration, which the collector skips. -/
inductive Decl where
  | ifaceDecl (tname : String) (typeParamCount : Nat) (resolved : Option Iface)
  | otherDecl
deriving DecidableEq

/-- An analyzed source file: its (relative) path and its top-level
declarations. -/
structure SrcFile where
  fname : String
  decls : List Decl
deriving DecidableEq

/-- The registry entries contributed by one declaration: one entry per
explicit method of a resolved interface declaration, owned by the declaring
interface's name; nothing for other declarations. -/
def entriesOfDecl : Decl → List (Func × MethodInfo)
  | .ifaceDecl tname _ (some i) =>
    i.explicitMethods.map fun m =>
      (m, { ifaceName := tname, iface := i, method := m, used := false })
  | _ => []

/-- The sequence of registry insertions performed by
`collectInterfaceMethods` in analizer.go: files not excluded by the path
filter, their declarations in order, one entry per explicit method. -/
def flatEntries (shouldIgnore : String → Bool) (files : List SrcFile) :
    List (Func × MethodInfo) :=
  (files.filter fun f => !shouldIgnore f.fname).flatMap fun f =>
    f.decls.flatMap entriesOfDecl

/-- `collectInterfaceMethods` from analizer.go: build the registry by
inserting, in source order, one entry per explicitly declared method of each
interface declared in a non-ignored file. -/
def collectInterfaceMethods (shouldIgnore : String → Bool)
    (files : List SrcFile) : Registry :=
  buildMap (flatEntries shouldIgnore files)

/-- The `skipGenerics` gate of main.go: an interface declaration with type
parameters is dropped when the flag is set; everything else is kept. -/
def keepDecl (skipGenerics : Bool) (d : Decl) : Bool :=
  match d with
  | .ifaceDecl _ tp _ => !(skipGenerics && tp > 0)
  | .otherDecl => true

/-- The registry insertions performed by step A of `run` in main.go: no path
filter, and when `skipGenerics` is set, interface declarations with type
parameters are skipped entirely. -/
def flatEntriesMain (skipGenerics : Bool) (files : List SrcFile) :
    List (Func × MethodInfo) :=
  files.flatMap fun f =>
    (f.decls.filter (keepDecl skipGenerics)).flatMap entriesOfDecl

/-- The collection phase of `run` in main.go, with the `skipGenerics`
flag. -/
def collectMain (skipGenerics : Bool) (files : List SrcFile) : Registry :=
  buildMap (flatEntriesMain skipGenerics files)

/-! ## The traversal: events and the usage tracker -/

/-- The initializer expression of a single-initializer `var` spec, together
with the type information the analyzer reads off it: an identifier (with
`Uses[rhsIdent].Type()`, `none` when the object is nil), a unary `&`
expression (with `TypeOf(value)`), or any other expression shape. -/
inductive RhsExpr where
  | identE (name : String) (usesTy : Option Ty)
  | addrExpr (tyOf : Option Ty)
  | otherE
deriving DecidableEq

/-- The syntax-tree events the inspector delivers, each carrying the static
type information the analyzer queries on it.
* `varSpec`: a `ValueSpec` of a `var` declaration — names with their
  `Defs`-type (`none` when the object is nil), and initializer expressions.
* `selEv`: a `SelectorExpr` — the identifier name of `node.X` when `X` is an
  identifier, and the selection resolution: `some (calledMethod, recv)` when
  `Selections[node]` is a method value or method expression, `none`
  otherwise.
* `callEv`: a `CallExpr` — whether its callee identifier resolves to a
  function of package `fmt`, and `TypeOf` of each argument. -/
inductive Event where
  | varSpec (names : List (String × Option Ty)) (values : List RhsExpr)
  | selEv (xIdent : Option String) (selRes : Option (Func × Ty))
  | callEv (isFmtFn : Bool) (args : List (Option Ty))
deriving DecidableEq

/-- The two side maps of `methodAnalyzer`: `varAssignments` (variable name
to source interface type name) and `concreteTypes` (variable name to list of
assigned concrete type names). -/
structure VarMaps where
  varAssignments : List (String × String)
  concreteTypes : List (String × List String)
deriving DecidableEq

/-- Association-list lookup (Go map read). -/
def assocLookup {α : Type} : List (String × α) → String → Option α
  | [], _ => none
  | (k, v) :: rest, key => if k = key then some v else assocLookup rest key

/-- Association-list overwrite (Go map write). -/
def assocInsert {α : Type} : List (String × α) → String → α → List (String × α)
  | [], key, v => [(key, v)]
  | (k, v') :: rest, key, v =>
    if k = key then (key, v) :: rest else (k, v') :: assocInsert rest key v

/-- `ma.concreteTypes[lhsName] = append(ma.concreteTypes[lhsName], typeName)`. -/
def multiAppend (m : List (String × List String)) (key v : String) :
    List (String × List String) :=
  match m with
  | [] => [(key, [v])]
  | (k, vs) :: rest =>
    if k = key then (k, vs ++ [v]) :: rest else (k, vs) :: multiAppend rest key v

/-- One step of `collectVarAssignments`: only `var` specs with exactly one
name and one value are considered; the declared variable's type must have an
interface underlying; an identifier initializer records the source type's
name (when it is a named type), and a `&`-expression whose type is a pointer
to a named type records that concrete type name. -/
def collectVarStep (st : VarMaps) (e : Event) : VarMaps :=
  match e with
  | .varSpec [(lhsName, some lhsTy)] [rhs] =>
    if (underlyingIfaceOf lhsTy).isSome then
      match rhs with
      | .identE _ (some rhsTy) =>
        let rhsTypeName := getTypeName rhsTy
        if rhsTypeName ≠ "" then
          { st with varAssignments := assocInsert st.varAssignments lhsName rhsTypeName }
        else st
      | .addrExpr (some (.ptr elemTy)) =>
        match namedInfoOf elemTy with
        | some n => { st with concreteTypes := multiAppend st.concreteTypes lhsName n.name }
        | none => st
      | _ => st
    else st
  | _ => st

/-- `collectVarAssignments` from analizer.go: the first traversal pass,
folding `collectVarStep` over the events. -/
def collectVarAssignments (events : List Event) : VarMaps :=
  events.foldl collectVarStep { varAssignments := [], concreteTypes := [] }

/-- Add a method to the used set (Go: `usedMethods[m] = true`). -/
def insertUsed (used : List Func) (m : Func) : List Func :=
  if m ∈ used then used else m :: used

/-- `markMatchingMethods` from analizer.go: for every registry entry not yet
marked used, mark it if `isMethodMatch` accepts it for the called method and
receiver.  The traversal always has a receiver, hence `some recv`. -/
def markMatchingMethods (registry : Registry) (used : List Func)
    (calledMethod : Func) (recv : Ty) : List Func :=
  registry.foldl
    (fun acc p =>
      if p.1 ∈ acc then acc
      else if isMethodMatch calledMethod p.1 (some recv) p.2 = some true then
        p.1 :: acc
      else acc)
    used

/-- The `varAssignments` branch of `analyzeSelectorExpr`: mark every
registry method owned by the recorded source interface type that has the
called method's name and an identical signature. -/
def markFromVarAssign (registry : Registry) (used : List Func)
    (sourceType : String) (calledMethod : Func) : List Func :=
  registry.foldl
    (fun acc p =>
      if p.2.ifaceName = sourceType ∧ p.1.name = calledMethod.name ∧
          p.1.sig = calledMethod.sig then
        insertUsed acc p.1
      else acc)
    used

/-- `concreteTypeImplementsInterface` from analizer.go: scan the defined
named types of the package (`TypesInfo.Defs`) for one with the given name
that implements the interface as a value or as a pointer. -/
def concreteTypeImplementsInterface (defs : List Ty) (typeName : String)
    (iface : Iface) : Bool :=
  defs.any fun t =>
    match namedInfoOf t with
    | some n =>
      n.name == typeName &&
        (typesImplements t iface || typesImplements (Ty.ptr t) iface)
    | none => false

/-- The `concreteTypes` branch of `analyzeSelectorExpr`: for each concrete
type name recorded against the receiver variable, mark every registry method
with the called method's name and identical signature whose interface that
concrete type implements. -/
def markFromConcrete (registry : Registry) (defs : List Ty) (used : List Func)
    (typeNames : List String) (calledMethod : Func) : List Func :=
  typeNames.foldl
    (fun acc tn =>
      registry.foldl
        (fun acc2 p =>
          if p.1.name = calledMethod.name ∧ p.1.sig = calledMethod.sig ∧
              concreteTypeImplementsInterface defs tn p.2.iface = true then
            insertUsed acc2 p.1
          else acc2)
        acc)
    used

/-- `analyzeSelectorExpr` from analizer.go: on a method-value or
method-expression selection, run the match resolver against every registry
entry, then, when `node.X` is an identifier, additionally propagate through
the recorded variable assignments and concrete-type assignments. -/
def analyzeSelectorExpr (registry : Registry) (defs : List Ty) (vm : VarMaps)
    (used : List Func) (xIdent : Option String)
    (selRes : Option (Func × Ty)) : List Func :=
  match selRes with
  | none => used
  | some (calledMethod, recv) =>
    let u1 := markMatchingMethods registry used calledMethod recv
    match xIdent with
    | none => u1
    | some x =>
      let u2 :=
        match assocLookup vm.varAssignments x with
        | some sourceType => markFromVarAssign registry u1 sourceType calledMethod
        | none => u1
      match assocLookup vm.concreteTypes x with
      | some typeNames => markFromConcrete registry defs u2 typeNames calledMethod
      | none => u2

/-- `isStringerMethod` from analizer.go: the method is named `String`, takes
no parameters and returns exactly one result of the basic string type. -/
def isStringerMethod (method : Func) : Bool :=
  if method.name ≠ "String" then false
  else if method.sig.params.length ≠ 0 ∨ method.sig.results.length ≠ 1 then false
  else
    match method.sig.results with
    | [.str] => true
    | _ => false

/-- `checkStringerUsage` from analizer.go: mark every not-yet-used registry
method that is a stringer method and whose interface the argument type
implements.  Note that the interface may register further methods; only the
candidate method itself is required to have the stringer shape. -/
def checkStringerUsage (registry : Registry) (used : List Func)
    (argType : Ty) : List Func :=
  registry.foldl
    (fun acc p =>
      if p.1 ∈ acc then acc
      else if isStringerMethod p.1 && typesImplements argType p.2.iface then
        p.1 :: acc
      else acc)
    used

/-- `analyzeFmtCall` from analizer.go: run `checkStringerUsage` on the
static type of every argument that has one. -/
def analyzeFmtCall (registry : Registry) (used : List Func)
    (args : List (Option Ty)) : List Func :=
  args.foldl
    (fun acc a =>
      match a with
      | none => acc
      | some t => checkStringerUsage registry acc t)
    used

/-- One step of the second traversal pass (`analyze` in analizer.go):
selector expressions go to `analyzeSelectorExpr`; call expressions whose
callee is a `fmt` function go to `analyzeFmtCall`; everything else is
skipped. -/
def analyzeStep (registry : Registry) (defs : List Ty) (vm : VarMaps)
    (used : List Func) (e : Event) : List Func :=
  match e with
  | .selEv xIdent selRes => analyzeSelectorExpr registry defs vm used xIdent selRes
  | .callEv isFmtFn args => if isFmtFn then analyzeFmtCall registry used args else used
  | .varSpec _ _ => used

/-- `analyzeUsedMethods`/`analyze` from analizer.go: collect the variable
assignments in a first pass, then fold the usage-marking step over the
events. -/
def analyzeUsedMethods (registry : Registry) (defs : List Ty)
    (events : List Event) : List Func :=
  events.foldl (analyzeStep registry defs (collectVarAssignments events)) []

/-! ## The reporter -/

/-- A reported diagnostic: position, method name and owning interface name,
as passed to `pass.Reportf`. -/
structure Diagnostic where
  pos : Pos
  methodName : String
  ifaceName : String
deriving DecidableEq

/-- The diagnostic emitted for one unused method. -/
def mkDiag (info : MethodInfo) : Diagnostic :=
  { pos := info.method.pos, methodName := info.method.name,
    ifaceName := info.ifaceName }

/-- The comparator passed to `sort.Slice` in `reportUnusedMethods`: by file
name, then by line.  Entries with equal file and line compare false both
ways. -/
def posLess (a b : MethodInfo) : Bool :=
  if a.method.pos.file ≠ b.method.pos.file then
    decide (a.method.pos.file < b.method.pos.file)
  else decide (a.method.pos.line < b.method.pos.line)

/-- Insert an element into a list, before the first element `x` with
`less a x`.  On a prefix already sorted by an asymmetric transitive `less`
this is the placement `sort.Slice`'s insertion sort produces (Go's sort
runs plain insertion sort on slices shorter than twelve elements, which
covers the registries considered here); in particular an element
incomparable to all others keeps its position. -/
def goInsert {α : Type} (less : α → α → Bool) : List α → α → List α
  | [], a => [a]
  | x :: xs, a => if less a x then a :: x :: xs else x :: goInsert less xs a

/-- The sort performed by `sort.Slice`: fold the insertion over the slice in
its given order. -/
def goSort {α : Type} (less : α → α → Bool) (l : List α) : List α :=
  l.foldl (goInsert less) []

/-- `reportUnusedMethods` from analizer.go, as a function of the order in
which the Go map iteration enumerates the registry (`enum`): flip the used
flag of every entry whose method is in the used set, keep the entries still
unused, sort them with `posLess`, and emit one diagnostic each. -/
def reportUnusedMethods (enum : List (Func × MethodInfo))
    (used : List Func) : List Diagnostic :=
  let unused := (enum.filter fun p => !p.2.used && !(used.contains p.1)).map
    fun p => p.2
  (goSort posLess unused).map mkDiag

/-- The text of one diagnostic line, in the analyzer's output format. -/
def renderDiag (d : Diagnostic) : String :=
  d.pos.file ++ ":" ++ toString d.pos.line ++ ":" ++ toString d.pos.col ++
    ": method \x22" ++ d.methodName ++ "\x22 of interface \x22" ++
    d.ifaceName ++ "\x22 is declared but not used"

/-- The emitted output, one line per diagnostic. -/
def renderDiags (ds : List Diagnostic) : String :=
  String.intercalate "\n" (ds.map renderDiag)

/-- The whole analyzed input of one run: the files (for collection), the
defined named types of the package (`TypesInfo.Defs`, for the
concrete-type propagation), and the traversal events. -/
structure Program where
  files : List SrcFile
  defs : List Ty
  events : List Event

/-- `run` from analizer.go: collect, analyze, report.  The reporter is fed
the registry in insertion order here; theorems about map-iteration order
quantify over permutations via `reportUnusedMethods` directly. -/
def run (shouldIgnore : String → Bool) (prog : Program) : List Diagnostic :=
  let registry := collectInterfaceMethods shouldIgnore prog.files
  let used := analyzeUsedMethods registry prog.defs prog.events
  reportUnusedMethods registry used

/-- The analyzer's notion of one traversal event selecting or invoking a
registered method `m`: a selector expression whose resolution the match
resolver attributes to `m`, or which propagates to `m` through a recorded
variable assignment or concrete-type assignment, or a `fmt` call one of
whose arguments marks `m` as an implicitly used stringer method. -/
def eventMarks (registry : Registry) (defs : List Ty) (vm : VarMaps)
    (e : Event) (m : Func) : Prop :=
  match e with
  | .selEv xIdent selRes =>
    ∃ c recv, selRes = some (c, recv) ∧
      ((∃ info, (m, info) ∈ registry ∧
          isMethodMatch c m (some recv) info = some true) ∨
        ∃ x, xIdent = some x ∧
          ((∃ st, assocLookup vm.varAssignments x = some st ∧
              ∃ info, (m, info) ∈ registry ∧ info.ifaceName = st ∧
                m.name = c.name ∧ m.sig = c.sig) ∨
            ∃ tns, assocLookup vm.concreteTypes x = some tns ∧
              ∃ tn ∈ tns, ∃ info, (m, info) ∈ registry ∧
                m.name = c.name ∧ m.sig = c.sig ∧
                concreteTypeImplementsInterface defs tn info.iface = true))
  | .callEv isFmtFn args =>
    isFmtFn = true ∧ ∃ t, some t ∈ args ∧ ∃ info, (m, info) ∈ registry ∧
      isStringerMethod m = true ∧ typesImplements t info.iface = true
  | .varSpec _ _ => False

/-- The interface name a declaration contributes to the registry, if any:
the type name of a resolved interface declaration. -/
def declName : Decl → Option String
  | .ifaceDecl tn _ (some _) => some tn
  | _ => none

/-- The names of all interfaces collected from the non-ignored files, with
multiplicity. -/
def ifaceNamesOf (shouldIgnore : String → Bool) (files : List SrcFile) :
    List String :=
  (files.filter fun f => !shouldIgnore f.fname).flatMap fun f =>
    f.decls.filterMap declName

/-- The sort key of a registry entry: file path and line of the method's
position. -/
def posKey (info : MethodInfo) : String × Nat :=
  (info.method.pos.file, info.method.pos.line)


end UIM

namespace UIM.Cfg

/-- A parsed configuration document: either malformed (yaml.Unmarshal
fails), or a document that may or may not set the `ignore` key. -/
inductive YamlDoc where
  | malformed
  | doc (ignore : Option (List String))
deriving DecidableEq

/-- The outcome of accessing a path, combining `os.Stat` and `os.ReadFile`:
the file does not exist (`os.IsNotExist`), `os.Stat` fails with another
error, the file exists but `os.ReadFile` fails, or the file exists and has
the given parsed content. -/
inductive FileResult where
  | absent
  | statErr
  | readErr
  | content (d : YamlDoc)
deriving DecidableEq

/-- `Config` from the config package: the ignore patterns. -/
structure Config where
  Ignore : List String
deriving DecidableEq

/-- `defaultConfig` from the config package. -/
def defaultConfig : Config :=
  { Ignore := ["**/*_test.go", "test/**", "**/*_mock.go", "**/mock/**", "**/mocks/**"] }

/-- The candidate configuration file locations searched by
`findConfigFile`. -/
def configCandidates : List String :=
  [".unused-interface-methods.yml", "unused-interface-methods.yml",
   ".config/unused-interface-methods.yml", ".unused-interface-methods.yaml",
   "unused-interface-methods.yaml", ".config/unused-interface-methods.yaml"]

/-- Whether `os.Stat` succeeds on a path. -/
def statOk : FileResult → Bool
  | .absent => false
  | .statErr => false
  | _ => true

/-- `findConfigFile` from the config package: the first candidate on which
`os.Stat` succeeds, or `""`. -/
def findConfigFile (fs : String → FileResult) : String :=
  match configCandidates.find? fun c => statOk (fs c) with
  | some c => c
  | none => ""

/-- The error cases `LoadConfig` can return. -/
inductive LoadErr where
  | statFail
  | readFail
  | parseFail
deriving DecidableEq

/-- `LoadConfig` from the config package.  An empty path triggers the
standard-location search; a path that still comes up empty, or a path whose
`os.Stat` error is `IsNotExist`, falls back to the default configuration
without error; any other stat error, a read error, or a malformed document
is returned as an error.  `yaml.Unmarshal` decodes into a value initialized
to `defaultConfig`, so a well-formed document without an `ignore` key keeps
the default patterns. -/
def LoadConfig (fs : String → FileResult) (configPath : String) :
    Except LoadErr Config :=
  let path := if configPath = "" then findConfigFile fs else configPath
  if path = "" then .ok defaultConfig
  else
    match fs path with
    | .absent => .ok defaultConfig
    | .statErr => .error .statFail
    | .readErr => .error .readFail
    | .content .malformed => .error .parseFail
    | .content (.doc ignorePatterns) =>
      match ignorePatterns with
      | some patterns => .ok { Ignore := patterns }
      | none => .ok defaultConfig

end UIM.Cfg

namespace UIM.Fix

/-! Concrete fixtures: small programs, registries and types used to
instantiate the claim theorems on explicit inputs. -/

def sig0 : FuncSig := { params := [], results := [] }

def sigS : FuncSig := { params := [], results := [SimpleTy.str] }

def c5called : Func := { fid := 1, name := "M", sig := sig0, pos := ⟨"a.go", 1, 1⟩ }

def c5cand : Func := { fid := 2, name := "M", sig := sig0, pos := ⟨"a.go", 2, 1⟩ }

def c5info : MethodInfo :=
  { ifaceName := "I", iface := ⟨[c5cand], [c5cand]⟩, method := c5cand, used := false }

def c7n : NamedInfo := { uid := 100, name := "BoxInt", originUid := 50, originName := "Box" }

def c7m : Func :=
  { fid := 3, name := "Get", sig := { params := [], results := [SimpleTy.tyRef 7] },
    pos := ⟨"g.go", 2, 1⟩ }

def c7c : Func :=
  { fid := 4, name := "Get", sig := { params := [], results := [SimpleTy.basic 2] },
    pos := ⟨"g.go", 9, 1⟩ }

def c7iface : Iface := { explicitMethods := [c7m], allMethods := [c7m] }

def c7info : MethodInfo := { ifaceName := "Box", iface := c7iface, method := c7m, used := false }

def c7t : Ty := Ty.namedI c7n c7iface

def c4mString : Func := { fid := 20, name := "String", sig := sigS, pos := ⟨"s.go", 2, 2⟩ }

def c4mExtra : Func := { fid := 21, name := "Extra", sig := sig0, pos := ⟨"s.go", 3, 2⟩ }

def c4iface : Iface :=
  { explicitMethods := [c4mString, c4mExtra], allMethods := [c4mString, c4mExtra] }

def c4reg : Registry :=
  [(c4mString, ⟨"S", c4iface, c4mString, false⟩), (c4mExtra, ⟨"S", c4iface, c4mExtra, false⟩)]

def c4T : Ty :=
  Ty.namedC { uid := 7, name := "T", originUid := 7, originName := "T" }
    [{ fid := 30, name := "String", sig := sigS, pos := ⟨"s.go", 10, 1⟩ },
     { fid := 31, name := "Extra", sig := sig0, pos := ⟨"s.go", 11, 1⟩ }]

def c10fs : String → Cfg.FileResult := fun p =>
  if p = "gone.yml" then .absent
  else if p = "locked.yml" then .readErr
  else if p = "bad.yml" then .content .malformed
  else .statErr

def c2m1 : Func := { fid := 40, name := "Do", sig := sig0, pos := ⟨"c.go", 2, 2⟩ }

def c2m2 : Func := { fid := 41, name := "Do", sig := sig0, pos := ⟨"c.go", 6, 2⟩ }

def c2I1 : Iface := { explicitMethods := [c2m1], allMethods := [c2m1] }

def c2I2 : Iface := { explicitMethods := [c2m2], allMethods := [c2m2] }

def c2n1 : NamedInfo := { uid := 60, name := "I1", originUid := 60, originName := "I1" }

def c3nA : NamedInfo := { uid := 70, name := "A", originUid := 70, originName := "A" }

def c3nB : NamedInfo := { uid := 71, name := "B", originUid := 71, originName := "B" }

def c3mA : Func := { fid := 45, name := "Ping", sig := sig0, pos := ⟨"v.go", 2, 2⟩ }

def c3mB : Func := { fid := 46, name := "Ping", sig := sig0, pos := ⟨"v.go", 6, 2⟩ }

def c3IA : Iface := { explicitMethods := [c3mA], allMethods := [c3mA] }

def c3IB : Iface := { explicitMethods := [c3mB], allMethods := [c3mB] }

def c3infoA : MethodInfo := { ifaceName := "A", iface := c3IA, method := c3mA, used := false }

def c3reg : Registry := [(c3mA, c3infoA), (c3mB, ⟨"B", c3IB, c3mB, false⟩)]

def c6m1 : Func := { fid := 80, name := "A", sig := sig0, pos := ⟨"x.go", 5, 3⟩ }

def c6m2 : Func := { fid := 81, name := "B", sig := sig0, pos := ⟨"x.go", 5, 8⟩ }

def c6i : Iface := { explicitMethods := [c6m1, c6m2], allMethods := [c6m1, c6m2] }

def c6enum1 : List (Func × MethodInfo) :=
  [(c6m1, ⟨"I", c6i, c6m1, false⟩), (c6m2, ⟨"I", c6i, c6m2, false⟩)]

def c6enum2 : List (Func × MethodInfo) :=
  [(c6m2, ⟨"I", c6i, c6m2, false⟩), (c6m1, ⟨"I", c6i, c6m1, false⟩)]

def d6m1 : Func := { fid := 82, name := "A", sig := sig0, pos := ⟨"y.go", 4, 3⟩ }

def d6m2 : Func := { fid := 83, name := "B", sig := sig0, pos := ⟨"y.go", 5, 3⟩ }

def d6i : Iface := { explicitMethods := [d6m1, d6m2], allMethods := [d6m1, d6m2] }

def d6enum1 : List (Func × MethodInfo) :=
  [(d6m1, ⟨"J", d6i, d6m1, false⟩), (d6m2, ⟨"J", d6i, d6m2, false⟩)]

def d6enum2 : List (Func × MethodInfo) :=
  [(d6m2, ⟨"J", d6i, d6m2, false⟩), (d6m1, ⟨"J", d6i, d6m1, false⟩)]

def c8mFoo : Func := { fid := 90, name := "Foo", sig := sig0, pos := ⟨"e.go", 2, 2⟩ }

def c8A : Iface := { explicitMethods := [c8mFoo], allMethods := [c8mFoo] }

def c8B : Iface := { explicitMethods := [], allMethods := [c8mFoo] }

def c8files : List SrcFile :=
  [⟨"e.go", [.ifaceDecl "A" 0 (some c8A), .ifaceDecl "B" 0 (some c8B)]⟩]

def c8infoA : MethodInfo := { ifaceName := "A", iface := c8A, method := c8mFoo, used := false }

def c8infoB : MethodInfo := { ifaceName := "B", iface := c8B, method := c8mFoo, used := false }

def c9mG : Func := { fid := 95, name := "G", sig := sig0, pos := ⟨"m.go", 2, 2⟩ }

def c9mP : Func := { fid := 96, name := "P", sig := sig0, pos := ⟨"m.go", 6, 2⟩ }

def c9G : Iface := { explicitMethods := [c9mG], allMethods := [c9mG] }

def c9P : Iface := { explicitMethods := [c9mP], allMethods := [c9mP] }

def c9files : List SrcFile :=
  [⟨"m.go", [.ifaceDecl "G" 1 (some c9G), .ifaceDecl "P" 0 (some c9P)]⟩]

def c9infoG : MethodInfo := { ifaceName := "G", iface := c9G, method := c9mG, used := false }

def c9infoP : MethodInfo := { ifaceName := "P", iface := c9P, method := c9mP, used := false }

def c1m1 : Func := { fid := 11, name := "Write", sig := sig0, pos := ⟨"w.go", 2, 2⟩ }

def c1m2 : Func := { fid := 12, name := "Close", sig := sig0, pos := ⟨"w.go", 3, 2⟩ }

def c1I : Iface := { explicitMethods := [c1m1, c1m2], allMethods := [c1m1, c1m2] }

def c1prog : Program :=
  { files := [⟨"w.go", [.ifaceDecl "W" 0 (some c1I)]⟩], defs := [], events := [] }

end UIM.Fix

namespace UIM

/-! ## Lemmas: membership in the used set -/

/-- Folding a marking step whose effect on membership is described by a
predicate `P` marks exactly the initial set plus the elements some list
element's predicate hits. -/
theorem mem_foldl_of_step {β : Type} (f : List Func → β → List Func)
    (P : β → Func → Prop)
    (hf : ∀ acc x m, m ∈ f acc x ↔ m ∈ acc ∨ P x m) :
    ∀ (l : List β) (init : List Func) (m : Func),
      m ∈ l.foldl f init ↔ m ∈ init ∨ ∃ x ∈ l, P x m := by
  intro l
  induction l with
  | nil => simp
  | cons x xs ih =>
    intro init m
    rw [List.foldl_cons, ih, hf]
    simp only [List.mem_cons]
    constructor
    · rintro ((h | h) | ⟨y, hy, hP⟩)
      · exact Or.inl h
      · exact Or.inr ⟨x, Or.inl rfl, h⟩
      · exact Or.inr ⟨y, Or.inr hy, hP⟩
    · rintro (h | ⟨y, (rfl | hy), hP⟩)
      · exact Or.inl (Or.inl h)
      · exact Or.inl (Or.inr hP)
      · exact Or.inr ⟨y, hy, hP⟩

theorem mem_insertUsed {used : List Func} {a m : Func} :
    m ∈ insertUsed used a ↔ m ∈ used ∨ m = a := by
  unfold insertUsed
  split
  · constructor
    · exact fun h => Or.inl h
    · rintro (h | rfl) <;> assumption
  · simp [or_comm]

theorem mem_markMatchingMethods {registry : Registry} {used : List Func}
    {c : Func} {recv : Ty} {m : Func} :
    m ∈ markMatchingMethods registry used c recv ↔
      m ∈ used ∨ ∃ info, (m, info) ∈ registry ∧
        isMethodMatch c m (some recv) info = some true := by
  unfold markMatchingMethods
  rw [mem_foldl_of_step _
    (fun p m => m = p.1 ∧ isMethodMatch c p.1 (some recv) p.2 = some true)]
  · constructor
    · rintro (h | ⟨p, hp, rfl, hmatch⟩)
      · exact Or.inl h
      · exact Or.inr ⟨p.2, hp, hmatch⟩
    · rintro (h | ⟨info, hmem, hmatch⟩)
      · exact Or.inl h
      · exact Or.inr ⟨(m, info), hmem, rfl, hmatch⟩
  · intro acc x m'
    split
    · constructor
      · exact fun h => Or.inl h
      · rintro (h | ⟨rfl, _⟩) <;> [exact h; assumption]
    · split
      · simp only [List.mem_cons]
        constructor
        · rintro (rfl | h)
          · exact Or.inr ⟨rfl, by assumption⟩
          · exact Or.inl h
        · rintro (h | ⟨rfl, _⟩)
          · exact Or.inr h
          · exact Or.inl rfl
      · constructor
        · exact fun h => Or.inl h
        · rintro (h | ⟨rfl, hc⟩)
          · exact h
          · exact absurd hc (by assumption)

theorem mem_markFromVarAssign {registry : Registry} {used : List Func}
    {sourceType : String} {c : Func} {m : Func} :
    m ∈ markFromVarAssign registry used sourceType c ↔
      m ∈ used ∨ ∃ info, (m, info) ∈ registry ∧ info.ifaceName = sourceType ∧
        m.name = c.name ∧ m.sig = c.sig := by
  unfold markFromVarAssign
  rw [mem_foldl_of_step _
    (fun p m => m = p.1 ∧ p.2.ifaceName = sourceType ∧ p.1.name = c.name ∧
      p.1.sig = c.sig)]
  · constructor
    · rintro (h | ⟨p, hp, rfl, hcond⟩)
      · exact Or.inl h
      · exact Or.inr ⟨p.2, hp, hcond⟩
    · rintro (h | ⟨info, hmem, hcond⟩)
      · exact Or.inl h
      · exact Or.inr ⟨(m, info), hmem, rfl, hcond⟩
  · intro acc x m'
    split
    · rw [mem_insertUsed]
      constructor
      · rintro (h | rfl)
        · exact Or.inl h
        · exact Or.inr ⟨rfl, by assumption⟩
      · rintro (h | ⟨rfl, _⟩)
        · exact Or.inl h
        · exact Or.inr rfl
    · constructor
      · exact fun h => Or.inl h
      · rintro (h | ⟨rfl, hc⟩)
        · exact h
        · exact absurd hc (by assumption)

theorem mem_markFromConcrete {registry : Registry} {defs : List Ty}
    {used : List Func} {typeNames : List String} {c : Func} {m : Func} :
    m ∈ markFromConcrete registry defs used typeNames c ↔
      m ∈ used ∨ ∃ tn ∈ typeNames, ∃ info, (m, info) ∈ registry ∧
        m.name = c.name ∧ m.sig = c.sig ∧
        concreteTypeImplementsInterface defs tn info.iface = true := by
  unfold markFromConcrete
  rw [mem_foldl_of_step _
    (fun tn m => ∃ info, (m, info) ∈ registry ∧ m.name = c.name ∧
      m.sig = c.sig ∧ concreteTypeImplementsInterface defs tn info.iface = true)]
  intro acc tn m'
  rw [mem_foldl_of_step _
    (fun p m => m = p.1 ∧ p.1.name = c.name ∧ p.1.sig = c.sig ∧
      concreteTypeImplementsInterface defs tn p.2.iface = true)]
  · constructor
    · rintro (h | ⟨p, hp, rfl, hcond⟩)
      · exact Or.inl h
      · exact Or.inr ⟨p.2, hp, hcond⟩
    · rintro (h | ⟨info, hmem, hcond⟩)
      · exact Or.inl h
      · exact Or.inr ⟨(m', info), hmem, rfl, hcond⟩
  · intro acc2 p m2
    split
    · rw [mem_insertUsed]
      constructor
      · rintro (h | rfl)
        · exact Or.inl h
        · exact Or.inr ⟨rfl, by assumption⟩
      · rintro (h | ⟨rfl, _⟩)
        · exact Or.inl h
        · exact Or.inr rfl
    · constructor
      · exact fun h => Or.inl h
      · rintro (h | ⟨rfl, hc⟩)
        · exact h
        · exact absurd hc (by assumption)

theorem mem_checkStringerUsage {registry : Registry} {used : List Func}
    {argType : Ty} {m : Func} :
    m ∈ checkStringerUsage registry used argType ↔
      m ∈ used ∨ ∃ info, (m, info) ∈ registry ∧ isStringerMethod m = true ∧
        typesImplements argType info.iface = true := by
  unfold checkStringerUsage
  rw [mem_foldl_of_step _
    (fun p m => m = p.1 ∧ isStringerMethod p.1 = true ∧
      typesImplements argType p.2.iface = true)]
  · constructor
    · rintro (h | ⟨p, hp, rfl, hcond⟩)
      · exact Or.inl h
      · exact Or.inr ⟨p.2, hp, hcond⟩
    · rintro (h | ⟨info, hmem, hcond⟩)
      · exact Or.inl h
      · exact Or.inr ⟨(m, info), hmem, rfl, hcond⟩
  · intro acc p m'
    split
    · constructor
      · exact fun h => Or.inl h
      · rintro (h | ⟨rfl, _⟩) <;> [exact h; assumption]
    · rename_i hnotmem
      split
      · rename_i hcond
        rw [Bool.and_eq_true] at hcond
        simp only [List.mem_cons]
        constructor
        · rintro (rfl | h)
          · exact Or.inr ⟨rfl, hcond.1, hcond.2⟩
          · exact Or.inl h
        · rintro (h | ⟨rfl, _⟩)
          · exact Or.inr h
          · exact Or.inl rfl
      · rename_i hcond
        rw [Bool.and_eq_true] at hcond
        constructor
        · exact fun h => Or.inl h
        · rintro (h | ⟨rfl, h1, h2⟩)
          · exact h
          · exact absurd ⟨h1, h2⟩ hcond

theorem mem_analyzeFmtCall {registry : Registry} {used : List Func}
    {args : List (Option Ty)} {m : Func} :
    m ∈ analyzeFmtCall registry used args ↔
      m ∈ used ∨ ∃ t, some t ∈ args ∧ ∃ info, (m, info) ∈ registry ∧
        isStringerMethod m = true ∧ typesImplements t info.iface = true := by
  unfold analyzeFmtCall
  rw [mem_foldl_of_step _
    (fun a m => ∃ t, a = some t ∧ ∃ info, (m, info) ∈ registry ∧
      isStringerMethod m = true ∧ typesImplements t info.iface = true)]
  · constructor
    · rintro (h | ⟨a, ha, t, rfl, hrest⟩)
      · exact Or.inl h
      · exact Or.inr ⟨t, ha, hrest⟩
    · rintro (h | ⟨t, ht, hrest⟩)
      · exact Or.inl h
      · exact Or.inr ⟨some t, ht, t, rfl, hrest⟩
  · intro acc a m'
    match a with
    | none => simp
    | some t =>
      rw [mem_checkStringerUsage]
      constructor
      · rintro (h | ⟨info, hmem, hrest⟩)
        · exact Or.inl h
        · exact Or.inr ⟨t, rfl, info, hmem, hrest⟩
      · rintro (h | ⟨t', ht', info, hmem, hrest⟩)
        · exact Or.inl h
        · cases ht'
          exact Or.inr ⟨info, hmem, hrest⟩

theorem mem_analyzeSelectorExpr {registry : Registry} {defs : List Ty}
    {vm : VarMaps} {used : List Func} {xIdent : Option String}
    {selRes : Option (Func × Ty)} {m : Func} :
    m ∈ analyzeSelectorExpr registry defs vm used xIdent selRes ↔
      m ∈ used ∨ eventMarks registry defs vm (.selEv xIdent selRes) m := by
  match selRes with
  | none => simp [analyzeSelectorExpr, eventMarks]
  | some (c, recv) =>
    unfold analyzeSelectorExpr eventMarks
    have base :
        ∀ u : List Func,
          (m ∈ match xIdent with
            | none => u
            | some x =>
              let u2 :=
                match assocLookup vm.varAssignments x with
                | some sourceType => markFromVarAssign registry u sourceType c
                | none => u
              match assocLookup vm.concreteTypes x with
              | some typeNames => markFromConcrete registry defs u2 typeNames c
              | none => u2) ↔
            m ∈ u ∨
              ∃ x, xIdent = some x ∧
                ((∃ st, assocLookup vm.varAssignments x = some st ∧
                    ∃ info, (m, info) ∈ registry ∧ info.ifaceName = st ∧
                      m.name = c.name ∧ m.sig = c.sig) ∨
                  ∃ tns, assocLookup vm.concreteTypes x = some tns ∧
                    ∃ tn ∈ tns, ∃ info, (m, info) ∈ registry ∧
                      m.name = c.name ∧ m.sig = c.sig ∧
                      concreteTypeImplementsInterface defs tn info.iface = true) := by
      intro u
      match xIdent with
      | none => simp
      | some x =>
        rcases hva : assocLookup vm.varAssignments x with _ | st <;>
          rcases hct : assocLookup vm.concreteTypes x with _ | tns
        · simp [hva, hct]
        · simp [hva, hct, mem_markFromConcrete]
        · simp [hva, hct, mem_markFromVarAssign]
        · simp [hva, hct, mem_markFromConcrete, mem_markFromVarAssign, or_assoc]
    rw [base, mem_markMatchingMethods]
    constructor
    · rintro ((h | hdirect) | hrest)
      · exact Or.inl h
      · exact Or.inr ⟨c, recv, rfl, Or.inl hdirect⟩
      · exact Or.inr ⟨c, recv, rfl, Or.inr hrest⟩
    · rintro (h | ⟨c', recv', heq, (hdirect | hrest)⟩)
      · exact Or.inl (Or.inl h)
      · cases heq; exact Or.inl (Or.inr hdirect)
      · cases heq; exact Or.inr hrest

theorem mem_analyzeStep {registry : Registry} {defs : List Ty} {vm : VarMaps}
    {used : List Func} {e : Event} {m : Func} :
    m ∈ analyzeStep registry defs vm used e ↔
      m ∈ used ∨ eventMarks registry defs vm e m := by
  match e with
  | .selEv xIdent selRes => exact mem_analyzeSelectorExpr
  | .varSpec names values => simp [analyzeStep, eventMarks]
  | .callEv isFmtFn args =>
    match isFmtFn with
    | true =>
      simp only [analyzeStep, eventMarks, if_pos, mem_analyzeFmtCall]
      simp
    | false => simp [analyzeStep, eventMarks]

/-- Characterization of the used set: a method is marked used by the
traversal exactly when some event marks it, relative to the variable maps
collected in the first pass. -/
theorem mem_analyzeUsedMethods {registry : Registry} {defs : List Ty}
    {events : List Event} {m : Func} :
    m ∈ analyzeUsedMethods registry defs events ↔
      ∃ e ∈ events,
        eventMarks registry defs (collectVarAssignments events) e m := by
  unfold analyzeUsedMethods
  rw [mem_foldl_of_step _
    (eventMarks registry defs (collectVarAssignments events))
    (fun acc e m => mem_analyzeStep)]
  simp

/-! ## Lemmas: registry construction -/

theorem mem_mapInsert {reg : Registry} {k : Func} {v : MethodInfo}
    {p : Func × MethodInfo} :
    p ∈ mapInsert reg k v → p ∈ reg ∨ p = (k, v) := by
  induction reg with
  | nil => simp [mapInsert]
  | cons q rest ih =>
    unfold mapInsert
    split
    · intro h
      rcases List.mem_cons.mp h with h | h
      · exact Or.inr h
      · exact Or.inl (List.mem_cons_of_mem _ h)
    · intro h
      rcases List.mem_cons.mp h with h | h
      · exact Or.inl (h ▸ List.mem_cons_self _ _)
      · rcases ih h with h' | h'
        · exact Or.inl (List.mem_cons_of_mem _ h')
        · exact Or.inr h'

theorem mapInsert_of_not_mem {reg : Registry} {k : Func} {v : MethodInfo}
    (h : k ∉ reg.map Prod.fst) : mapInsert reg k v = reg ++ [(k, v)] := by
  induction reg with
  | nil => rfl
  | cons q rest ih =>
    simp only [List.map_cons, List.mem_cons] at h
    push_neg at h
    unfold mapInsert
    rw [if_neg (fun he => h.1 he.symm), ih h.2]
    rfl

/-- Building the map from entries with pairwise-distinct keys keeps the
entries untouched and in order. -/
theorem buildMap_eq_of_nodup {entries : List (Func × MethodInfo)}
    (h : (entries.map Prod.fst).Nodup) : buildMap entries = entries := by
  unfold buildMap
  suffices H : ∀ (l : List (Func × MethodInfo)) (reg : Registry),
      ((reg ++ l).map Prod.fst).Nodup →
      l.foldl (fun r p => mapInsert r p.1 p.2) reg = reg ++ l by
    simpa using H entries [] (by simpa using h)
  intro l
  induction l with
  | nil => simp
  | cons p rest ih =>
    intro reg hnd
    have hkey : p.1 ∉ reg.map Prod.fst := by
      rw [List.map_append, List.nodup_append] at hnd
      intro hk
      exact hnd.2.2 hk (by simp)
    rw [List.foldl_cons, mapInsert_of_not_mem hkey,
      show reg ++ p :: rest = (reg ++ [p]) ++ rest by simp]
    exact ih _ (by simpa [List.append_assoc] using hnd)

/-- Any entry of the built map is one of the inserted entries. -/
theorem mem_buildMap {entries : List (Func × MethodInfo)}
    {p : Func × MethodInfo} (h : p ∈ buildMap entries) : p ∈ entries := by
  unfold buildMap at h
  suffices H : ∀ (l : List (Func × MethodInfo)) (reg : Registry),
      p ∈ l.foldl (fun r q => mapInsert r q.1 q.2) reg → p ∈ reg ∨ p ∈ l by
    rcases H entries [] h with h' | h'
    · cases h'
    · exact h'
  intro l
  induction l with
  | nil => exact fun reg h => Or.inl h
  | cons q rest ih =>
    intro reg h
    rcases ih _ h with h' | h'
    · rcases mem_mapInsert h' with h'' | h''
      · exact Or.inl h''
      · exact Or.inr (by simp [h''])
    · exact Or.inr (List.mem_cons_of_mem _ h')

/-! ## Lemmas: the sort and the reporter -/

theorem goInsert_perm {α : Type} (less : α → α → Bool) (l : List α) (a : α) :
    List.Perm (goInsert less l a) (a :: l) := by
  induction l with
  | nil => exact List.Perm.refl _
  | cons x xs ih =>
    unfold goInsert
    split
    · exact List.Perm.refl _
    · exact List.Perm.trans (List.Perm.cons x ih) (List.Perm.swap a x xs)

theorem mem_goInsert {α : Type} {less : α → α → Bool} {l : List α} {a x : α} :
    x ∈ goInsert less l a ↔ x = a ∨ x ∈ l := by
  rw [(goInsert_perm less l a).mem_iff, List.mem_cons]

theorem goSort_perm {α : Type} (less : α → α → Bool) (l : List α) :
    List.Perm (goSort less l) l := by
  unfold goSort
  suffices H : ∀ (l acc : List α),
      List.Perm (l.foldl (goInsert less) acc) (acc ++ l) by
    simpa using H l []
  intro l
  induction l with
  | nil => simp
  | cons x xs ih =>
    intro acc
    refine List.Perm.trans (ih (goInsert less acc x)) ?_
    refine List.Perm.trans ((goInsert_perm less acc x).append_right xs) ?_
    exact List.perm_middle.symm

theorem goInsert_pairwise {α : Type} {less : α → α → Bool}
    (htrans : ∀ x y z : α, less x y = true → less y z = true → less x z = true)
    (l : List α) (a : α)
    (hs : l.Pairwise fun x y => less x y = true)
    (htot : ∀ b ∈ l, less a b = true ∨ less b a = true) :
    (goInsert less l a).Pairwise fun x y => less x y = true := by
  induction l with
  | nil => simp [goInsert]
  | cons x xs ih =>
    rw [List.pairwise_cons] at hs
    unfold goInsert
    split
    · rename_i hax
      rw [List.pairwise_cons]
      refine ⟨?_, List.pairwise_cons.mpr hs⟩
      intro y hy
      rcases List.mem_cons.mp hy with rfl | hy
      · exact hax
      · exact htrans _ _ _ hax (hs.1 y hy)
    · rename_i hax
      have hxa : less x a = true := by
        rcases htot x (List.mem_cons_self _ _) with h | h
        · exact absurd h hax
        · exact h
      rw [List.pairwise_cons]
      constructor
      · intro y hy
        rcases mem_goInsert.mp hy with rfl | hy
        · exact hxa
        · exact hs.1 y hy
      · exact ih hs.2 fun b hb => htot b (List.mem_cons_of_mem _ hb)

theorem goSort_pairwise {α : Type} {less : α → α → Bool}
    (htrans : ∀ x y z : α, less x y = true → less y z = true → less x z = true)
    {l : List α}
    (htot : l.Pairwise fun a b => less a b = true ∨ less b a = true) :
    (goSort less l).Pairwise fun a b => less a b = true := by
  unfold goSort
  suffices H : ∀ (l acc : List α),
      acc.Pairwise (fun a b => less a b = true) →
      (∀ a ∈ l, ∀ b ∈ acc, less a b = true ∨ less b a = true) →
      l.Pairwise (fun a b => less a b = true ∨ less b a = true) →
      (l.foldl (goInsert less) acc).Pairwise fun a b => less a b = true by
    exact H l [] (by simp) (by simp) htot
  intro l
  induction l with
  | nil =>
    intro acc hacc _ _
    exact hacc
  | cons x xs ih =>
    intro acc hacc htot2 hpt
    rw [List.pairwise_cons] at hpt
    refine ih (goInsert less acc x) ?_ ?_ hpt.2
    · exact goInsert_pairwise htrans acc x hacc
        fun b hb => htot2 x (List.mem_cons_self _ _) b hb
    · intro a ha b hb
      rcases mem_goInsert.mp hb with rfl | hb
      · exact Or.symm (hpt.1 a ha)
      · exact htot2 a (List.mem_cons_of_mem _ ha) b hb

/-- Two lists that are permutations of one another and both strictly sorted
by an asymmetric comparator are equal. -/
theorem eq_of_perm_of_pairwise {α : Type} {less : α → α → Bool}
    (hasym : ∀ x y : α, less x y = true → less y x = true → False) :
    ∀ {l₁ l₂ : List α}, List.Perm l₁ l₂ →
      l₁.Pairwise (fun a b => less a b = true) →
      l₂.Pairwise (fun a b => less a b = true) → l₁ = l₂ := by
  intro l₁
  induction l₁ with
  | nil =>
    intro l₂ hp _ _
    exact hp.nil_eq
  | cons a t ih =>
    intro l₂ hp hs₁ hs₂
    match l₂ with
    | [] => exact absurd hp.symm.nil_eq (by simp)
    | b :: t₂ =>
      rw [List.pairwise_cons] at hs₁ hs₂
      have hab : a = b := by
        by_contra hne
        have ha2 : a ∈ t₂ := by
          rcases List.mem_cons.mp (hp.mem_iff.mp (List.mem_cons_self a t)) with h | h
          · exact absurd h hne
          · exact h
        have hb1 : b ∈ t := by
          rcases List.mem_cons.mp (hp.symm.mem_iff.mp (List.mem_cons_self b t₂)) with h | h
          · exact absurd h.symm hne
          · exact h
        exact hasym _ _ (hs₁.1 b hb1) (hs₂.1 a ha2)
      subst hab
      rw [ih (hp.cons_inv) hs₁.2 hs₂.2]

/-! ## Lemmas: declared interface names and collected entries -/

theorem mem_entriesOfDecl {d : Decl} {m : Func} {info : MethodInfo} :
    (m, info) ∈ entriesOfDecl d ↔
      ∃ tp, d = .ifaceDecl info.ifaceName tp (some info.iface) ∧
        m ∈ info.iface.explicitMethods ∧ info.method = m ∧ info.used = false := by
  match d with
  | .otherDecl => simp [entriesOfDecl]
  | .ifaceDecl tn tp none => simp [entriesOfDecl]
  | .ifaceDecl tn tp (some i) =>
    simp only [entriesOfDecl, List.mem_map, Prod.mk.injEq]
    constructor
    · rintro ⟨m', hm', rfl, rfl⟩
      exact ⟨tp, rfl, hm', rfl, rfl⟩
    · rintro ⟨tp', heq, hm, hmeth, hused⟩
      rcases info with ⟨iname, ifc, meth, fl⟩
      cases heq
      cases hmeth
      cases hused
      exact ⟨_, hm, rfl, rfl⟩

theorem name_of_mem_entriesOfDecl {d : Decl} {p : Func × MethodInfo}
    (h : p ∈ entriesOfDecl d) : declName d = some p.2.ifaceName := by
  match d with
  | .otherDecl => simp [entriesOfDecl] at h
  | .ifaceDecl tn tp none => simp [entriesOfDecl] at h
  | .ifaceDecl tn tp (some i) =>
    simp only [entriesOfDecl, List.mem_map] at h
    rcases h with ⟨m, hm, rfl⟩
    rfl

theorem filter_entriesOfDecl_self {tname : String} {tp : Nat} {I : Iface} :
    (entriesOfDecl (.ifaceDecl tname tp (some I))).filter
      (fun p => p.2.ifaceName == tname) =
      entriesOfDecl (.ifaceDecl tname tp (some I)) := by
  apply List.filter_eq_self.mpr
  intro p hp
  have := name_of_mem_entriesOfDecl hp
  simp only [declName, Option.some.injEq] at this
  simp [this]

theorem filter_entriesOfDecl_ne {d : Decl} {tname : String}
    (h : declName d ≠ some tname) :
    (entriesOfDecl d).filter (fun p => p.2.ifaceName == tname) = [] := by
  apply List.filter_eq_nil_iff.mpr
  intro p hp
  have := name_of_mem_entriesOfDecl hp
  simp only [beq_iff_eq]
  intro heq
  exact h (heq ▸ this)

theorem filter_decls_entries_of_not_mem {decls : List Decl} {tname : String}
    (h : tname ∉ decls.filterMap declName) :
    ((decls.flatMap entriesOfDecl).filter fun p => p.2.ifaceName == tname) = [] := by
  induction decls with
  | nil => rfl
  | cons d rest ih =>
    rw [List.flatMap_cons, List.filter_append]
    rw [List.filterMap_cons] at h
    have hd : declName d ≠ some tname := by
      intro hdn
      rw [hdn] at h
      exact h (List.mem_cons_self _ _)
    have hrest : tname ∉ rest.filterMap declName := by
      intro hmem
      apply h
      match hdecl : declName d with
      | none => exact hmem
      | some s => exact List.mem_cons_of_mem _ hmem
    rw [filter_entriesOfDecl_ne hd, ih hrest]
    rfl

theorem filter_decls_entries_of_mem {decls : List Decl} {tname : String}
    {tp : Nat} {I : Iface}
    (hnd : (decls.filterMap declName).Nodup)
    (hmem : Decl.ifaceDecl tname tp (some I) ∈ decls) :
    ((decls.flatMap entriesOfDecl).filter fun p => p.2.ifaceName == tname) =
      entriesOfDecl (.ifaceDecl tname tp (some I)) := by
  induction decls with
  | nil => cases hmem
  | cons d rest ih =>
    rw [List.flatMap_cons, List.filter_append]
    rcases List.mem_cons.mp hmem with heq | hmem'
    · subst heq
      rw [List.filterMap_cons] at hnd
      have hrest : tname ∉ rest.filterMap declName := by
        simp only [declName] at hnd
        rw [List.nodup_cons] at hnd
        exact hnd.1
      rw [filter_entriesOfDecl_self, filter_decls_entries_of_not_mem hrest,
        List.append_nil]
    · have hdname : tname ∈ rest.filterMap declName := by
        apply List.mem_filterMap.mpr
        exact ⟨_, hmem', rfl⟩
      have hd : declName d ≠ some tname := by
        intro hdn
        rw [List.filterMap_cons, hdn] at hnd
        rw [List.nodup_cons] at hnd
        exact hnd.1 hdname
      have hndrest : (rest.filterMap declName).Nodup := by
        rw [List.filterMap_cons] at hnd
        match hdecl : declName d with
        | none => rw [hdecl] at hnd; exact hnd
        | some s => rw [hdecl] at hnd; exact (List.nodup_cons.mp hnd).2
      rw [filter_entriesOfDecl_ne hd, ih hndrest hmem']
      rfl

theorem flatEntries_cons_ignored {si : String → Bool} {f : SrcFile}
    {rest : List SrcFile} (hsi : si f.fname = true) :
    flatEntries si (f :: rest) = flatEntries si rest := by
  unfold flatEntries
  rw [List.filter_cons]
  simp [hsi]

theorem flatEntries_cons_kept {si : String → Bool} {f : SrcFile}
    {rest : List SrcFile} (hsi : si f.fname = false) :
    flatEntries si (f :: rest) =
      f.decls.flatMap entriesOfDecl ++ flatEntries si rest := by
  unfold flatEntries
  rw [List.filter_cons]
  simp [hsi]

theorem ifaceNamesOf_cons_ignored {si : String → Bool} {f : SrcFile}
    {rest : List SrcFile} (hsi : si f.fname = true) :
    ifaceNamesOf si (f :: rest) = ifaceNamesOf si rest := by
  unfold ifaceNamesOf
  rw [List.filter_cons]
  simp [hsi]

theorem ifaceNamesOf_cons_kept {si : String → Bool} {f : SrcFile}
    {rest : List SrcFile} (hsi : si f.fname = false) :
    ifaceNamesOf si (f :: rest) =
      f.decls.filterMap declName ++ ifaceNamesOf si rest := by
  unfold ifaceNamesOf
  rw [List.filter_cons]
  simp [hsi]

theorem filter_flatEntries_of_not_mem {si : String → Bool}
    {files : List SrcFile} {tname : String}
    (h : tname ∉ ifaceNamesOf si files) :
    ((flatEntries si files).filter fun p => p.2.ifaceName == tname) = [] := by
  induction files with
  | nil => rfl
  | cons f rest ih =>
    by_cases hsi : si f.fname = true
    · rw [flatEntries_cons_ignored hsi]
      rw [ifaceNamesOf_cons_ignored hsi] at h
      exact ih h
    · have hsi' : si f.fname = false := by simpa using hsi
      rw [flatEntries_cons_kept hsi', List.filter_append]
      rw [ifaceNamesOf_cons_kept hsi', List.mem_append] at h
      push_neg at h
      rw [filter_decls_entries_of_not_mem h.1, ih h.2]
      rfl

/-- Under distinct declared interface names, the registry entries carrying a
given interface name are exactly the entries of that interface's unique
declaration. -/
theorem filter_flatEntries_name {si : String → Bool} {files : List SrcFile}
    {tname : String} {tp : Nat} {I : Iface}
    (hnames : (ifaceNamesOf si files).Nodup)
    (hf : ∃ f ∈ files, si f.fname = false ∧
      Decl.ifaceDecl tname tp (some I) ∈ f.decls) :
    ((flatEntries si files).filter fun p => p.2.ifaceName == tname) =
      entriesOfDecl (.ifaceDecl tname tp (some I)) := by
  induction files with
  | nil => simp at hf
  | cons f rest ih =>
    rcases hf with ⟨f', hf', hsi', hdecl⟩
    rcases List.mem_cons.mp hf' with rfl | hf'rest
    · rw [flatEntries_cons_kept hsi', List.filter_append]
      rw [ifaceNamesOf_cons_kept hsi', List.nodup_append] at hnames
      have htn : tname ∈ f'.decls.filterMap declName :=
        List.mem_filterMap.mpr ⟨_, hdecl, rfl⟩
      rw [filter_decls_entries_of_mem hnames.1 hdecl,
        filter_flatEntries_of_not_mem (fun hmem => hnames.2.2 htn hmem),
        List.append_nil]
    · by_cases hsi : si f.fname = true
      · rw [flatEntries_cons_ignored hsi]
        rw [ifaceNamesOf_cons_ignored hsi] at hnames
        exact ih hnames ⟨f', hf'rest, hsi', hdecl⟩
      · have hsif : si f.fname = false := by simpa using hsi
        rw [flatEntries_cons_kept hsif, List.filter_append]
        rw [ifaceNamesOf_cons_kept hsif, List.nodup_append] at hnames
        have htn : tname ∈ ifaceNamesOf si rest := by
          unfold ifaceNamesOf
          apply List.mem_flatMap.mpr
          refine ⟨f', List.mem_filter.mpr ⟨hf'rest, by simp [hsi']⟩, ?_⟩
          exact List.mem_filterMap.mpr ⟨_, hdecl, rfl⟩
        have hdn : tname ∉ f.decls.filterMap declName := by
          intro hmem
          exact hnames.2.2 hmem htn
        rw [filter_decls_entries_of_not_mem hdn,
          ih hnames.2.1 ⟨f', hf'rest, hsi', hdecl⟩]
        rfl

theorem posLess_iff {a b : MethodInfo} :
    posLess a b = true ↔
      a.method.pos.file < b.method.pos.file ∨
        (a.method.pos.file = b.method.pos.file ∧
          a.method.pos.line < b.method.pos.line) := by
  unfold posLess
  by_cases h : a.method.pos.file = b.method.pos.file
  · simp [h, lt_irrefl]
  · simp [h]

theorem posLess_trans : ∀ a b c : MethodInfo,
    posLess a b = true → posLess b c = true → posLess a c = true := by
  intro a b c hab hbc
  rw [posLess_iff] at hab hbc ⊢
  rcases hab with h1 | ⟨h1, h1'⟩ <;> rcases hbc with h2 | ⟨h2, h2'⟩
  · exact Or.inl (lt_trans h1 h2)
  · exact Or.inl (h2 ▸ h1)
  · exact Or.inl (h1 ▸ h2)
  · exact Or.inr ⟨h1.trans h2, lt_trans h1' h2'⟩

theorem posLess_asymm : ∀ a b : MethodInfo,
    posLess a b = true → posLess b a = true → False := by
  intro a b hab hba
  rw [posLess_iff] at hab hba
  rcases hab with h1 | ⟨h1, h1'⟩ <;> rcases hba with h2 | ⟨h2, h2'⟩
  · exact absurd h2 (lt_asymm h1)
  · exact absurd (h2 ▸ h1) (lt_irrefl _)
  · exact absurd (h1 ▸ h2) (lt_irrefl _)
  · exact absurd h2' (lt_asymm h1')

theorem posLess_total_of_key_ne {a b : MethodInfo} (h : posKey a ≠ posKey b) :
    posLess a b = true ∨ posLess b a = true := by
  unfold posKey at h
  rw [posLess_iff, posLess_iff]
  rcases lt_trichotomy a.method.pos.file b.method.pos.file with hf | hf | hf
  · exact Or.inl (Or.inl hf)
  · rcases lt_trichotomy a.method.pos.line b.method.pos.line with hl | hl | hl
    · exact Or.inl (Or.inr ⟨hf, hl⟩)
    · exact absurd (by rw [hf, hl]) h
    · exact Or.inr (Or.inr ⟨hf.symm, hl⟩)
  · exact Or.inr (Or.inl hf)

theorem mem_reportUnusedMethods {enum : List (Func × MethodInfo)}
    {used : List Func} {d : Diagnostic} :
    d ∈ reportUnusedMethods enum used ↔
      ∃ p ∈ enum, p.2.used = false ∧ p.1 ∉ used ∧ d = mkDiag p.2 := by
  unfold reportUnusedMethods
  rw [List.mem_map]
  constructor
  · rintro ⟨info, hinfo, rfl⟩
    have := (goSort_perm posLess _).mem_iff.mp hinfo
    rw [List.mem_map] at this
    rcases this with ⟨p, hp, rfl⟩
    rw [List.mem_filter] at hp
    refine ⟨p, hp.1, ?_, ?_, rfl⟩
    · have := hp.2
      simp only [Bool.and_eq_true, Bool.not_eq_true'] at this
      exact this.1
    · have := hp.2
      simp only [Bool.and_eq_true, Bool.not_eq_true', List.contains,
        List.elem_eq_mem, decide_eq_false_iff_not] at this
      exact this.2
  · rintro ⟨p, hp, hused, hnot, rfl⟩
    refine ⟨p.2, ?_, rfl⟩
    rw [(goSort_perm posLess _).mem_iff, List.mem_map]
    refine ⟨p, ?_, rfl⟩
    rw [List.mem_filter]
    refine ⟨hp, ?_⟩
    simp only [Bool.and_eq_true, Bool.not_eq_true', List.contains,
      List.elem_eq_mem, decide_eq_false_iff_not]
    exact ⟨hused, hnot⟩

theorem countP_reportUnusedMethods {enum : List (Func × MethodInfo)}
    {used : List Func} (q : Diagnostic → Bool) :
    (reportUnusedMethods enum used).countP q =
      (enum.filter fun p => !p.2.used && !(used.contains p.1)).countP
        fun p => q (mkDiag p.2) := by
  unfold reportUnusedMethods
  rw [List.countP_map, (goSort_perm posLess _).countP_eq, List.countP_map]
  rfl

/-- The reporter's output is determined by the multiset of unused entries:
any two enumeration orders of the registry whose entries have pairwise
distinct (file, line) keys produce the same diagnostics in the same
order. -/
theorem reportUnusedMethods_perm_invariant
    {enum1 enum2 : List (Func × MethodInfo)} {used : List Func}
    (hperm : List.Perm enum1 enum2)
    (hkeys : (enum1.map fun p => posKey p.2).Nodup) :
    reportUnusedMethods enum1 used = reportUnusedMethods enum2 used := by
  unfold reportUnusedMethods
  have hpermU : List.Perm
      ((enum1.filter fun p => !p.2.used && !(used.contains p.1)).map fun p => p.2)
      ((enum2.filter fun p => !p.2.used && !(used.contains p.1)).map fun p => p.2) :=
    (hperm.filter _).map _
  set u1 := (enum1.filter fun p => !p.2.used && !(used.contains p.1)).map
    fun p => p.2 with hu1
  set u2 := (enum2.filter fun p => !p.2.used && !(used.contains p.1)).map
    fun p => p.2 with hu2
  have hk1 : (u1.map posKey).Nodup := by
    rw [hu1, List.map_map]
    have hsub : List.Sublist
        ((enum1.filter fun p => !p.2.used && !(used.contains p.1)).map
          fun p => posKey p.2)
        (enum1.map fun p => posKey p.2) :=
      (List.filter_sublist enum1).map _
    exact hkeys.sublist hsub
  have hpair1 : u1.Pairwise fun a b => posKey a ≠ posKey b := by
    have : List.Pairwise (fun a b => a ≠ b) (u1.map posKey) := hk1
    exact List.pairwise_map.mp this
  have hpair2 : u2.Pairwise fun a b => posKey a ≠ posKey b :=
    hpermU.pairwise hpair1 fun h => h ∘ Eq.symm
  refine congrArg (List.map mkDiag) ?_
  refine eq_of_perm_of_pairwise posLess_asymm
    ((goSort_perm posLess u1).trans (hpermU.trans (goSort_perm posLess u2).symm))
    ?_ ?_
  · exact goSort_pairwise posLess_trans
      (hpair1.imp fun h => posLess_total_of_key_ne h)
  · exact goSort_pairwise posLess_trans
      (hpair2.imp fun h => posLess_total_of_key_ne h)

end UIM



namespace UIM

theorem assocLookup_assocInsert_self {α : Type} (l : List (String × α))
    (k : String) (v : α) : assocLookup (assocInsert l k v) k = some v := by
  induction l with
  | nil => simp [assocInsert, assocLookup]
  | cons p rest ih =>
    obtain ⟨k', v'⟩ := p
    unfold assocInsert
    split
    · simp [assocLookup]
    · rename_i hne
      unfold assocLookup
      rw [if_neg hne]
      exact ih

/-- The sortedness of the reporter's output, under pairwise distinct
(file, line) keys. -/
theorem reportUnusedMethods_pairwise {enum : List (Func × MethodInfo)}
    {used : List Func}
    (hkeys : (enum.map fun p => posKey p.2).Nodup) :
    (reportUnusedMethods enum used).Pairwise fun d1 d2 =>
      d1.pos.file < d2.pos.file ∨
        (d1.pos.file = d2.pos.file ∧ d1.pos.line < d2.pos.line) := by
  unfold reportUnusedMethods
  set u1 := (enum.filter fun p => !p.2.used && !(used.contains p.1)).map
    fun p => p.2 with hu1
  have hk1 : (u1.map posKey).Nodup := by
    rw [hu1, List.map_map]
    have hsub : List.Sublist
        ((enum.filter fun p => !p.2.used && !(used.contains p.1)).map
          fun p => posKey p.2)
        (enum.map fun p => posKey p.2) :=
      (List.filter_sublist enum).map _
    exact hkeys.sublist hsub
  have hpair1 : u1.Pairwise fun a b => posKey a ≠ posKey b := by
    have : List.Pairwise (fun a b => a ≠ b) (u1.map posKey) := hk1
    exact List.pairwise_map.mp this
  have hs : (goSort posLess u1).Pairwise fun a b => posLess a b = true :=
    goSort_pairwise posLess_trans
      (hpair1.imp fun h => posLess_total_of_key_ne h)
  apply List.pairwise_map.mpr
  apply hs.imp
  intro a b hab
  have := posLess_iff.mp hab
  exact this

end UIM

namespace UIM

/-! ## Claims -/

/-- Claim C5 is false as stated: at a nil-receiver query whose candidate has
the called method's name and an identical signature but is a distinct
object, the resolver does not return a result — it dereferences the nil
receiver (modelled by `none`) instead of returning `true`. -/
theorem claimC5_counterexample :
    Fix.c5called.name = Fix.c5cand.name ∧ Fix.c5called.sig = Fix.c5cand.sig ∧
      Fix.c5called ≠ Fix.c5cand ∧
      isMethodMatch Fix.c5called Fix.c5cand none Fix.c5info = none := by decide

/-- Claim C5 (amended): with a nil receiver the match resolver returns
`true` for the identical method object and `false` on a name or signature
mismatch, but for a distinct candidate with matching name and identical
signature it dereferences the nil receiver (modelled `none`) instead of
returning a result. -/
theorem claimC5_amended (c m : Func) (info : MethodInfo) :
    isMethodMatch c m none info =
      if c = m then some true
      else if c.name ≠ m.name then some false
      else if c.sig ≠ m.sig then some false
      else none := by
  rcases eq_or_ne c m with rfl | hne
  · simp [isMethodMatch]
  · by_cases hname : c.name = m.name
    · by_cases hsig : c.sig = m.sig
      · simp [isMethodMatch, genericRecvHit, hne, hname, hsig]
      · simp [isMethodMatch, genericRecvHit, hne, hname, hsig]
    · simp [isMethodMatch, hne, hname]

/-- Claim C7: when the receiver is an instantiation of a generic named type
whose origin's name equals the candidate's owning interface name and the
method names agree, the resolver accepts the match — with no constraint on
the two signatures (no type-parameter substitution, no structural
comparison) — and the candidate is marked used. -/
theorem claimC7_generic_name_match (c m : Func) (info : MethodInfo) (t : Ty)
    (n : NamedInfo) (reg : Registry) (used : List Func)
    (hn : namedInfoOf t = some n)
    (hname : c.name = m.name)
    (hinst : n.originUid ≠ n.uid)
    (horigin : n.originName = info.ifaceName) :
    isMethodMatch c m (some t) info = some true ∧
      ((m, info) ∈ reg → m ∈ markMatchingMethods reg used c t) := by
  have hhit : genericRecvHit (some t) info c m = true := by
    simp [genericRecvHit, hn, genericMethodsMatch, hinst, horigin]
  have hmm : isMethodMatch c m (some t) info = some true := by
    unfold isMethodMatch
    rcases eq_or_ne c m with rfl | hne
    · rw [if_pos rfl]
    · rw [if_neg hne, if_neg (fun h => h hname), if_pos hhit]
  exact ⟨hmm, fun hmem => mem_markMatchingMethods.mpr (Or.inr ⟨info, hmem, hmm⟩)⟩

/-- Witness for C7: a concrete instantiated generic receiver whose method
signature differs from the candidate's is still matched and marked used. -/
theorem claimC7_witness :
    isMethodMatch Fix.c7c Fix.c7m (some Fix.c7t) Fix.c7info = some true ∧
      Fix.c7m ∈ markMatchingMethods [(Fix.c7m, Fix.c7info)] [] Fix.c7c Fix.c7t :=
  ⟨(claimC7_generic_name_match Fix.c7c Fix.c7m Fix.c7info Fix.c7t Fix.c7n
      [(Fix.c7m, Fix.c7info)] [] (by decide) (by decide) (by decide) (by decide)).1,
   (claimC7_generic_name_match Fix.c7c Fix.c7m Fix.c7info Fix.c7t Fix.c7n
      [(Fix.c7m, Fix.c7info)] [] (by decide) (by decide) (by decide) (by decide)).2
     (by decide)⟩

/-- Claim C4 is false as stated: the interface `S` registers two methods
(`String` and `Extra`), yet a `fmt` call with an argument implementing `S`
still marks `S.String` used — the implementation checks only the candidate
method's own shape, not that it is the interface's sole registered method. -/
theorem claimC4_counterexample :
    Fix.c4iface.explicitMethods.length = 2 ∧
      Fix.c4mString ∈
        analyzeUsedMethods Fix.c4reg [] [Event.callEv true [some Fix.c4T]] := by decide

/-- Claim C4 (amended): through a call to a `fmt` function, a registered
method is marked used exactly when it is a zero-parameter single-string-
result method named `String` and some argument's static type implements its
owning interface — regardless of how many other methods that interface
registers. -/
theorem claimC4_amended (registry : Registry) (used : List Func)
    (args : List (Option Ty)) (m : Func) :
    m ∈ analyzeFmtCall registry used args ↔
      m ∈ used ∨ ∃ t, some t ∈ args ∧ ∃ info, (m, info) ∈ registry ∧
        isStringerMethod m = true ∧ typesImplements t info.iface = true :=
  mem_analyzeFmtCall

/-- Claim C10: with an explicitly given configuration path, a missing file
silently yields the default configuration and no error, while a stat
failure, an unreadable file, or a malformed document each yield an error. -/
theorem claimC10_load_config (fs : String → Cfg.FileResult) (path : String)
    (hpath : path ≠ "") :
    (fs path = .absent → Cfg.LoadConfig fs path = .ok Cfg.defaultConfig) ∧
    (fs path = .statErr → Cfg.LoadConfig fs path = .error .statFail) ∧
    (fs path = .readErr → Cfg.LoadConfig fs path = .error .readFail) ∧
    (fs path = .content .malformed →
      Cfg.LoadConfig fs path = .error .parseFail) :=
  ⟨fun h => by simp [Cfg.LoadConfig, hpath, h],
   fun h => by simp [Cfg.LoadConfig, hpath, h],
   fun h => by simp [Cfg.LoadConfig, hpath, h],
   fun h => by simp [Cfg.LoadConfig, hpath, h]⟩

/-- Witness for C10 on a concrete file system. -/
theorem claimC10_witness :
    Cfg.LoadConfig Fix.c10fs "gone.yml" = .ok Cfg.defaultConfig ∧
      Cfg.LoadConfig Fix.c10fs "locked.yml" = .error .readFail ∧
      Cfg.LoadConfig Fix.c10fs "bad.yml" = .error .parseFail :=
  ⟨(claimC10_load_config Fix.c10fs "gone.yml" (by decide)).1 (by decide),
   (claimC10_load_config Fix.c10fs "locked.yml" (by decide)).2.2.1 (by decide),
   (claimC10_load_config Fix.c10fs "bad.yml" (by decide)).2.2.2 (by decide)⟩

end UIM

namespace UIM

/-- Claim C8: after collection the registry has exactly one entry per
explicitly declared method: the keys are pairwise distinct, an entry exists
exactly when a declaration of a non-ignored file explicitly contributes it,
and every entry's method is an explicit method of the entry's own interface
— a method acquired only through embedding yields no entry for the
embedding interface. -/
theorem claimC8_explicit_entries (si : String → Bool) (files : List SrcFile)
    (hkeys : ((flatEntries si files).map Prod.fst).Nodup) :
    ((collectInterfaceMethods si files).map Prod.fst).Nodup ∧
    (∀ (m : Func) (info : MethodInfo),
      (m, info) ∈ collectInterfaceMethods si files ↔
        ∃ f ∈ files, si f.fname = false ∧
          ∃ d ∈ f.decls, (m, info) ∈ entriesOfDecl d) ∧
    ∀ p ∈ collectInterfaceMethods si files,
      p.1 ∈ p.2.iface.explicitMethods ∧ p.2.method = p.1 ∧ p.2.used = false := by
  have hc : collectInterfaceMethods si files = flatEntries si files := by
    rw [collectInterfaceMethods, buildMap_eq_of_nodup hkeys]
  rw [hc]
  refine ⟨hkeys, ?_, ?_⟩
  · intro m info
    unfold flatEntries
    rw [List.mem_flatMap]
    constructor
    · rintro ⟨f, hf, hd⟩
      rw [List.mem_filter] at hf
      rw [List.mem_flatMap] at hd
      rcases hd with ⟨d, hdm, he⟩
      exact ⟨f, hf.1, by simpa using hf.2, d, hdm, he⟩
    · rintro ⟨f, hf, hsi, d, hdm, he⟩
      exact ⟨f, List.mem_filter.mpr ⟨hf, by simp [hsi]⟩,
        List.mem_flatMap.mpr ⟨d, hdm, he⟩⟩
  · intro p hp
    unfold flatEntries at hp
    rw [List.mem_flatMap] at hp
    rcases hp with ⟨f, _, hd⟩
    rw [List.mem_flatMap] at hd
    rcases hd with ⟨d, _, he⟩
    rcases p with ⟨m, info⟩
    rw [mem_entriesOfDecl] at he
    rcases he with ⟨tp, _, hm, hmeth, hused⟩
    exact ⟨hm, hmeth, hused⟩

/-- Witness for C8: interface `A` declares `Foo`; interface `B` only embeds
it.  The registry owns `Foo` under `A` and has no entry attributing it to
`B`. -/
theorem claimC8_witness :
    (Fix.c8mFoo, Fix.c8infoA) ∈
        collectInterfaceMethods (fun _ => false) Fix.c8files ∧
      (Fix.c8mFoo, Fix.c8infoB) ∉
        collectInterfaceMethods (fun _ => false) Fix.c8files :=
  ⟨((claimC8_explicit_entries (fun _ => false) Fix.c8files (by decide)).2.1
      Fix.c8mFoo Fix.c8infoA).mpr (by decide),
   fun h => absurd
     (((claimC8_explicit_entries (fun _ => false) Fix.c8files (by decide)).2.1
        Fix.c8mFoo Fix.c8infoB).mp h) (by decide)⟩

/-- Claim C9: with the skip-generics flag set, every registry entry comes
from a kept declaration (one with zero type parameters), and every
diagnostic of any run over that registry is the diagnostic of such an
entry; with the flag unset, membership is exactly explicit declaration,
with no type-parameter condition. -/
theorem claimC9_skip_generics (files : List SrcFile) :
    (∀ (m : Func) (info : MethodInfo), (m, info) ∈ collectMain true files →
      ∃ f ∈ files, ∃ d ∈ f.decls, keepDecl true d = true ∧
        (m, info) ∈ entriesOfDecl d) ∧
    (∀ (enum : List (Func × MethodInfo)) (used : List Func) (dg : Diagnostic),
      List.Perm enum (collectMain true files) →
      dg ∈ reportUnusedMethods enum used →
      ∃ (m : Func) (info : MethodInfo), (m, info) ∈ collectMain true files ∧
        dg = mkDiag info) ∧
    (((flatEntriesMain false files).map Prod.fst).Nodup →
      ∀ (m : Func) (info : MethodInfo),
        ((m, info) ∈ collectMain false files ↔
          ∃ f ∈ files, ∃ d ∈ f.decls, (m, info) ∈ entriesOfDecl d)) := by
  refine ⟨?_, ?_, ?_⟩
  · intro m info hmem
    have hflat := mem_buildMap hmem
    unfold flatEntriesMain at hflat
    rw [List.mem_flatMap] at hflat
    rcases hflat with ⟨f, hf, hd⟩
    rw [List.mem_flatMap] at hd
    rcases hd with ⟨d, hdm, he⟩
    rw [List.mem_filter] at hdm
    exact ⟨f, hf, d, hdm.1, hdm.2, he⟩
  · intro enum used dg hperm hdg
    rw [mem_reportUnusedMethods] at hdg
    rcases hdg with ⟨p, hp, _, _, rfl⟩
    exact ⟨p.1, p.2, hperm.mem_iff.mp hp, rfl⟩
  · intro hkeys m info
    have hc : collectMain false files = flatEntriesMain false files := by
      rw [collectMain, buildMap_eq_of_nodup hkeys]
    rw [hc]
    unfold flatEntriesMain
    rw [List.mem_flatMap]
    have hfilter : ∀ f : SrcFile, f.decls.filter (keepDecl false) = f.decls := by
      intro f
      apply List.filter_eq_self.mpr
      intro d _
      cases d <;> rfl
    constructor
    · rintro ⟨f, hf, hd⟩
      rw [hfilter f, List.mem_flatMap] at hd
      rcases hd with ⟨d, hdm, he⟩
      exact ⟨f, hf, d, hdm, he⟩
    · rintro ⟨f, hf, d, hdm, he⟩
      exact ⟨f, hf, by rw [hfilter f, List.mem_flatMap]; exact ⟨d, hdm, he⟩⟩

/-- Witness for C9: a generic interface `G` (one type parameter) and a
plain interface `P` in one file.  With the flag unset `P`'s method is
registered; with the flag set `G`'s method is not. -/
theorem claimC9_witness :
    (Fix.c9mP, Fix.c9infoP) ∈ collectMain false Fix.c9files ∧
      (Fix.c9mG, Fix.c9infoG) ∉ collectMain true Fix.c9files :=
  ⟨(((claimC9_skip_generics Fix.c9files).2.2 (by decide)) Fix.c9mP
      Fix.c9infoP).mpr (by decide),
   fun h => absurd
     ((claimC9_skip_generics Fix.c9files).1 Fix.c9mG Fix.c9infoG h)
     (by decide)⟩

end UIM

namespace UIM

/-- Claim C2: for a receiver whose underlying type is an interface (and
which is not a generic instantiation hit), a distinct same-name
same-signature candidate matches exactly by `types.Identical` with the
candidate's interface descriptor — structural satisfaction is not
consulted; and in the scenario of two distinct interfaces sharing a method
shape, with the method called only through a value of the first interface's
own declared type, exactly one diagnostic is emitted, for the second
interface's method. -/
theorem claimC2_interface_identity
    (m1 m2 : Func) (n1 : NamedInfo) (I1 I2 : Iface)
    (tname1 tname2 fname : String)
    (hne : m1 ≠ m2) (hname : m1.name = m2.name) (hsig : m1.sig = m2.sig)
    (hI1 : I1.explicitMethods = [m1]) (hI2 : I2.explicitMethods = [m2])
    (hnoninst : n1.originUid = n1.uid) :
    (∀ (c cand : Func) (r : Ty) (u : Iface) (info : MethodInfo),
        c ≠ cand → c.name = cand.name → c.sig = cand.sig →
        underlyingIfaceOf r = some u →
        genericRecvHit (some r) info c cand = false →
        isMethodMatch c cand (some r) info =
          some (typesIdentical r (Ty.ifaceTy info.iface))) ∧
    run (fun _ => false)
        { files := [⟨fname, [.ifaceDecl tname1 0 (some I1),
            .ifaceDecl tname2 0 (some I2)]⟩],
          defs := [],
          events := [.selEv none (some (m1, Ty.namedI n1 I1))] } =
      [mkDiag { ifaceName := tname2, iface := I2, method := m2, used := false }] := by
  have hne' : m2 ≠ m1 := Ne.symm hne
  constructor
  · intro c cand r u info hnec hnamec hsigc hu hgen
    unfold isMethodMatch
    rw [if_neg hnec, if_neg (fun h => h hnamec), hgen,
      if_neg (by simp), if_neg (fun h => h hsigc)]
    simp only [hu]
  · have hreg : collectInterfaceMethods (fun _ => false)
        [⟨fname, [.ifaceDecl tname1 0 (some I1), .ifaceDecl tname2 0 (some I2)]⟩] =
        [(m1, ⟨tname1, I1, m1, false⟩), (m2, ⟨tname2, I2, m2, false⟩)] := by
      simp [collectInterfaceMethods, flatEntries, entriesOfDecl, hI1, hI2,
        buildMap, mapInsert, hne]
    have hmm1 : isMethodMatch m1 m1 (some (Ty.namedI n1 I1))
        ⟨tname1, I1, m1, false⟩ = some true := by
      unfold isMethodMatch
      rw [if_pos rfl]
    have hmm2 : isMethodMatch m1 m2 (some (Ty.namedI n1 I1))
        ⟨tname2, I2, m2, false⟩ = some false := by
      unfold isMethodMatch
      rw [if_neg hne, if_neg (fun h => h hname)]
      have hg : genericRecvHit (some (Ty.namedI n1 I1))
          ⟨tname2, I2, m2, false⟩ m1 m2 = false := by
        simp [genericRecvHit, namedInfoOf, hnoninst]
      rw [hg, if_neg (by simp), if_neg (fun h => h hsig)]
      simp [underlyingIfaceOf, typesIdentical]
    have hused : analyzeUsedMethods
        [(m1, ⟨tname1, I1, m1, false⟩), (m2, ⟨tname2, I2, m2, false⟩)] []
        [.selEv none (some (m1, Ty.namedI n1 I1))] = [m1] := by
      simp [analyzeUsedMethods, collectVarAssignments, collectVarStep,
        analyzeStep, analyzeSelectorExpr, markMatchingMethods, hmm1, hmm2, hne']
    have hrep : reportUnusedMethods
        [(m1, ⟨tname1, I1, m1, false⟩), (m2, ⟨tname2, I2, m2, false⟩)] [m1] =
        [mkDiag ⟨tname2, I2, m2, false⟩] := by
      simp [reportUnusedMethods, goSort, goInsert, mkDiag, hne']
    show reportUnusedMethods _ _ = _
    simp only [run, hreg, hused, hrep]

/-- Witness for C2: two concrete one-method interfaces with the same method
shape; calling through `I1` leaves exactly `I2`'s method reported. -/
theorem claimC2_witness :
    run (fun _ => false)
        { files := [⟨"c.go", [.ifaceDecl "I1" 0 (some Fix.c2I1),
            .ifaceDecl "I2" 0 (some Fix.c2I2)]⟩],
          defs := [],
          events := [.selEv none (some (Fix.c2m1, Ty.namedI Fix.c2n1 Fix.c2I1))] } =
      [mkDiag { ifaceName := "I2", iface := Fix.c2I2, method := Fix.c2m2,
                used := false }] :=
  (claimC2_interface_identity Fix.c2m1 Fix.c2m2 Fix.c2n1 Fix.c2I1 Fix.c2I2
    "I1" "I2" "c.go" (by decide) (by decide) (by decide) (by decide)
    (by decide) (by decide)).2

/-- Claim C3: in the declaration sequence `var a A = impl; var b B = a`
with interface-typed `a` and `b`, a selection of the shared method through
`b` marks `A`'s method used, although no selection mentions `a`. -/
theorem claimC3_alias_propagation
    (registry : Registry) (defs : List Ty) (mA mB : Func) (infoA : MethodInfo)
    (nA nB : NamedInfo) (IA IB : Iface) (va vb vimpl : String)
    (rhsImpl : Option Ty)
    (hvars : va ≠ vb)
    (hAname : nA.name ≠ "")
    (hmem : (mA, infoA) ∈ registry)
    (hown : infoA.ifaceName = nA.name)
    (hname : mA.name = mB.name) (hsig : mA.sig = mB.sig) :
    mA ∈ analyzeUsedMethods registry defs
      [.varSpec [(va, some (Ty.namedI nA IA))] [.identE vimpl rhsImpl],
       .varSpec [(vb, some (Ty.namedI nB IB))] [.identE va (some (Ty.namedI nA IA))],
       .selEv (some vb) (some (mB, Ty.namedI nB IB))] := by
  set e1 : Event := .varSpec [(va, some (Ty.namedI nA IA))] [.identE vimpl rhsImpl]
    with he1
  set e2 : Event := .varSpec [(vb, some (Ty.namedI nB IB))]
    [.identE va (some (Ty.namedI nA IA))] with he2
  set e3 : Event := .selEv (some vb) (some (mB, Ty.namedI nB IB)) with he3
  set st1 : VarMaps := collectVarStep { varAssignments := [], concreteTypes := [] } e1
    with hst1
  have hvm : collectVarAssignments [e1, e2, e3] = collectVarStep st1 e2 := rfl
  have hst2 : collectVarStep st1 e2 =
      { st1 with varAssignments := assocInsert st1.varAssignments vb nA.name } := by
    rw [he2]
    simp [collectVarStep, underlyingIfaceOf, getTypeName, hAname]
  apply mem_analyzeUsedMethods.mpr
  refine ⟨e3, by simp, ?_⟩
  rw [he3]
  refine ⟨mB, Ty.namedI nB IB, rfl,
    Or.inr ⟨vb, rfl, Or.inl ⟨nA.name, ?_, infoA, hmem, hown, hname, hsig⟩⟩⟩
  rw [hvm, hst2]
  exact assocLookup_assocInsert_self _ _ _

/-- Witness for C3 on concrete interfaces `A` and `B` sharing `Ping`. -/
theorem claimC3_witness :
    Fix.c3mA ∈ analyzeUsedMethods Fix.c3reg []
      [.varSpec [("a", some (Ty.namedI Fix.c3nA Fix.c3IA))]
        [.identE "impl" (some (Ty.namedC ⟨75, "Impl", 75, "Impl"⟩ []))],
       .varSpec [("b", some (Ty.namedI Fix.c3nB Fix.c3IB))]
        [.identE "a" (some (Ty.namedI Fix.c3nA Fix.c3IA))],
       .selEv (some "b") (some (Fix.c3mB, Ty.namedI Fix.c3nB Fix.c3IB))] :=
  claimC3_alias_propagation Fix.c3reg [] Fix.c3mA Fix.c3mB Fix.c3infoA
    Fix.c3nA Fix.c3nB Fix.c3IA Fix.c3IB "a" "b" "impl"
    (some (Ty.namedC ⟨75, "Impl", 75, "Impl"⟩ []))
    (by decide) (by decide) (by decide) (by decide) (by decide) (by decide)

/-- Claim C6 is false as stated: two enumeration orders of the same
registry — two runs differing only in map iteration order — emit the
diagnostics of two methods declared on the same line in different orders,
so the diagnostic output is not byte-identical for every input. -/
theorem claimC6_counterexample :
    List.Perm Fix.c6enum1 Fix.c6enum2 ∧
      reportUnusedMethods Fix.c6enum1 [] ≠ reportUnusedMethods Fix.c6enum2 [] ∧
      renderDiags (reportUnusedMethods Fix.c6enum1 []) ≠
        renderDiags (reportUnusedMethods Fix.c6enum2 []) := by decide

/-- Claim C6 (amended): the output is sorted by (file path, then line), and
it is identical across any two enumeration orders of the registry provided
the registered methods' (file, line) positions are pairwise distinct. -/
theorem claimC6_deterministic_when_keys_distinct
    (enum1 enum2 : List (Func × MethodInfo)) (used : List Func)
    (hperm : List.Perm enum1 enum2)
    (hkeys : (enum1.map fun p => posKey p.2).Nodup) :
    reportUnusedMethods enum1 used = reportUnusedMethods enum2 used ∧
    (reportUnusedMethods enum1 used).Pairwise fun d1 d2 =>
      d1.pos.file < d2.pos.file ∨
        (d1.pos.file = d2.pos.file ∧ d1.pos.line < d2.pos.line) :=
  ⟨reportUnusedMethods_perm_invariant hperm hkeys,
   reportUnusedMethods_pairwise hkeys⟩

/-- Witness for C6 (amended): with the two methods on distinct lines, both
enumeration orders give the same output. -/
theorem claimC6_witness :
    reportUnusedMethods Fix.d6enum1 [] = reportUnusedMethods Fix.d6enum2 [] :=
  (claimC6_deterministic_when_keys_distinct Fix.d6enum1 Fix.d6enum2 []
    (by decide) (by decide)).1

end UIM

namespace UIM

/-- Claim C1: if interface `tname` (resolved to `I`, with N explicit
methods) is declared in a non-ignored analyzed file, declared interface
names and collected method objects are distinct, and no traversal event
selects or invokes any of `I`'s methods (none is marked by any event), then
under any map enumeration order of the registry the reporter emits exactly
N diagnostics naming `tname`, and the diagnostic of every declared method
is among them. -/
theorem claimC1_unused_interface_fully_reported
    (si : String → Bool) (prog : Program) (tname : String) (tp : Nat)
    (I : Iface) (enum : List (Func × MethodInfo))
    (hkeys : ((flatEntries si prog.files).map Prod.fst).Nodup)
    (hnames : (ifaceNamesOf si prog.files).Nodup)
    (hf : ∃ f ∈ prog.files, si f.fname = false ∧
      Decl.ifaceDecl tname tp (some I) ∈ f.decls)
    (hunmarked : ∀ e ∈ prog.events, ∀ m ∈ I.explicitMethods,
      ¬ eventMarks (collectInterfaceMethods si prog.files) prog.defs
          (collectVarAssignments prog.events) e m)
    (henum : List.Perm enum (collectInterfaceMethods si prog.files)) :
    ((reportUnusedMethods enum
        (analyzeUsedMethods (collectInterfaceMethods si prog.files)
          prog.defs prog.events)).countP
      fun d => d.ifaceName == tname) = I.explicitMethods.length ∧
    ∀ m ∈ I.explicitMethods,
      mkDiag { ifaceName := tname, iface := I, method := m, used := false } ∈
        reportUnusedMethods enum
          (analyzeUsedMethods (collectInterfaceMethods si prog.files)
            prog.defs prog.events) := by
  have hflat : collectInterfaceMethods si prog.files =
      flatEntries si prog.files := by
    rw [collectInterfaceMethods, buildMap_eq_of_nodup hkeys]
  have hnotused : ∀ m ∈ I.explicitMethods,
      m ∉ analyzeUsedMethods (collectInterfaceMethods si prog.files)
        prog.defs prog.events := by
    intro m hm hmem
    rw [mem_analyzeUsedMethods] at hmem
    rcases hmem with ⟨e, he, hmark⟩
    exact hunmarked e he m hm hmark
  have hfilterB : ((flatEntries si prog.files).filter
      fun p => p.2.ifaceName == tname) =
      entriesOfDecl (.ifaceDecl tname tp (some I)) :=
    filter_flatEntries_name hnames hf
  have hentry : ∀ m ∈ I.explicitMethods,
      (m, ({ ifaceName := tname, iface := I, method := m,
             used := false } : MethodInfo)) ∈ flatEntries si prog.files := by
    intro m hm
    rcases hf with ⟨f, hfm, hsi, hdecl⟩
    unfold flatEntries
    rw [List.mem_flatMap]
    refine ⟨f, List.mem_filter.mpr ⟨hfm, by simp [hsi]⟩, ?_⟩
    rw [List.mem_flatMap]
    exact ⟨_, hdecl, mem_entriesOfDecl.mpr ⟨tp, rfl, hm, rfl, rfl⟩⟩
  set usedS := analyzeUsedMethods (collectInterfaceMethods si prog.files)
    prog.defs prog.events with husedS
  constructor
  · rw [countP_reportUnusedMethods]
    have hcnt1 : ((enum.filter fun p =>
        !p.2.used && !(usedS.contains p.1)).countP
        fun p => (mkDiag p.2).ifaceName == tname) =
        enum.countP fun p => ((mkDiag p.2).ifaceName == tname) &&
          (!p.2.used && !(usedS.contains p.1)) :=
      List.countP_filter _ _ _
    rw [hcnt1, henum.countP_eq, hflat, List.countP_eq_length_filter]
    have hcomm : ((flatEntries si prog.files).filter fun p =>
        ((mkDiag p.2).ifaceName == tname) &&
          (!p.2.used && !(usedS.contains p.1))) =
        ((flatEntries si prog.files).filter fun p => p.2.ifaceName == tname).filter
          fun p => !p.2.used && !(usedS.contains p.1) := by
      rw [List.filter_filter]
      exact List.filter_congr fun a _ => Bool.and_comm _ _
    rw [hcomm, hfilterB]
    have hall : ((entriesOfDecl (.ifaceDecl tname tp (some I))).filter
        fun p => !p.2.used && !(usedS.contains p.1)) =
        entriesOfDecl (.ifaceDecl tname tp (some I)) := by
      apply List.filter_eq_self.mpr
      intro p hp
      rw [mem_entriesOfDecl] at hp
      rcases p with ⟨m, info⟩
      rcases hp with ⟨tp', heq, hm, hmeth, hused⟩
      have hne : m ∉ usedS := by
        apply hnotused
        injection heq with h1 h2 h3
        injection h3 with h3a
        rw [← h3a] at hm
        exact hm
      simp [List.contains, List.elem_eq_mem, hne]
      exact hused
    rw [hall]
    unfold entriesOfDecl
    rw [List.length_map]
  · intro m hm
    rw [mem_reportUnusedMethods]
    refine ⟨(m, { ifaceName := tname, iface := I, method := m, used := false }),
      ?_, rfl, hnotused m hm, rfl⟩
    rw [henum.mem_iff, hflat]
    exact hentry m hm

/-- Witness for C1: one interface `W` with two methods and an empty event
set (zero call sites): exactly two diagnostics naming `W`, one per
method. -/
theorem claimC1_witness :
    ((reportUnusedMethods
        (collectInterfaceMethods (fun _ => false) Fix.c1prog.files)
        (analyzeUsedMethods
          (collectInterfaceMethods (fun _ => false) Fix.c1prog.files)
          Fix.c1prog.defs Fix.c1prog.events)).countP
      fun d => d.ifaceName == "W") = 2 ∧
    mkDiag { ifaceName := "W", iface := Fix.c1I, method := Fix.c1m1,
             used := false } ∈
      reportUnusedMethods
        (collectInterfaceMethods (fun _ => false) Fix.c1prog.files)
        (analyzeUsedMethods
          (collectInterfaceMethods (fun _ => false) Fix.c1prog.files)
          Fix.c1prog.defs Fix.c1prog.events) := by
  have h := claimC1_unused_interface_fully_reported (fun _ => false)
    Fix.c1prog "W" 0 Fix.c1I
    (collectInterfaceMethods (fun _ => false) Fix.c1prog.files)
    (by decide) (by decide) (by decide) (by simp [Fix.c1prog])
    (List.Perm.refl _)
  exact ⟨h.1, h.2 Fix.c1m1 (by decide)⟩

end UIM
